import Mathlib

/-!
Verification model of the glomerate entity-component system.

The definitions below are a shallow embedding of the C++ sources:
`include/ecs/ComponentStorage.hh`, `include/ecs/ComponentStorageImpl.hh`
(component pools, keyed pools, the soft-remove protocol and the iteration
collections) and `include/ecs/EntityManagerImpl.hh` (entity lifecycle and
the mask-based queries).  Component types are identified by natural numbers
(standing for `std::type_index`), component values are natural numbers,
and the per-entity `std::bitset` component masks are finite sets of bit
positions.  Fallible operations (C++ exceptions) return `Except Err`.
The event/subscription bus is not modelled; `Destroy` emits its
`EntityDestruction` event to an empty subscriber list, which is a no-op.
-/

deriving instance DecidableEq for Except

namespace Glomerate

/-- Entity identifier `(index, generation)` (`Entity::Id`). -/
structure Id where
  index : Nat
  gen : Nat
deriving DecidableEq, Repr

/-- The null identity `Entity::Id()`: index 0, generation 0. -/
def Id.null : Id := ⟨0, 0⟩

/-- Modelled from the spec: `Entity::Id::operator bool` (the file `Entity.hh`
defining it is not among the sources).  The spec designates index 0 as the
permanently dead null identity, so an id is truthy iff it differs from the
default-constructed null id. -/
def Id.isNonNull (e : Id) : Bool := decide (e ≠ Id.null)

/-- Failure conditions surfaced as C++ exceptions by the sources. -/
inductive Err where
  /-- `UnrecognizedComponentType` (a subclass of `std::invalid_argument`). -/
  | unrecognized
  /-- plain `std::invalid_argument`. -/
  | invalidArg
  /-- `std::runtime_error`. -/
  | runtime
  /-- `std::out_of_range` thrown by `vector::at` / `map::at`. -/
  | outOfRange
  /-- a failed `Assert(...)`. -/
  | assertFail
deriving DecidableEq, Repr

/-- `BaseComponentPool::INVALID_COMP_INDEX = static_cast<size_t>(-1)`. -/
def INVALID_COMP_INDEX : Nat := 2 ^ 64 - 1

/-- Modelled from the spec: `ECS_ENTITY_RECYCLE_COUNT` (defined in
`EntityManager.hh`, which is not among the sources) is the fixed tunable
minimum free-list size before index recycling begins.  Its exact value is
immaterial to the claims; any positive constant gives the spec's behaviour
that fresh managers allocate fresh indices. -/
def ECS_ENTITY_RECYCLE_COUNT : Nat := 8

/-- A fallible left fold: run `f` over the elements in order, stopping at the
first failure (the C++ loops whose bodies may throw). -/
def foldE {σ α : Type} (f : σ → α → Except Err σ) : σ → List α → Except Err σ
  | st, [] => .ok st
  | st, x :: xs =>
      match f st x with
      | .error err => .error err
      | .ok st' => foldE f st' xs

/-! ### Association-list counterparts of the C++ hash maps

`GLOMERATE_MAP_TYPE<K, V>` is an unordered map; only lookup, assignment
(`operator[] =`, which inserts or overwrites), in-place modification
through an iterator, and `erase` are used by the sources. -/

/-- Map lookup (`find` / `count > 0` / `at`). -/
def alookup {β : Type} : List (Nat × β) → Nat → Option β
  | [], _ => none
  | (k, v) :: rest, key => if k = key then some v else alookup rest key

/-- Map assignment `m[key] = v` (insert or overwrite). -/
def aset {β : Type} : List (Nat × β) → Nat → β → List (Nat × β)
  | [], key, v => [(key, v)]
  | (k, w) :: rest, key, v =>
      if k = key then (k, v) :: rest else (k, w) :: aset rest key v

/-- In-place modification of the value stored at `key`, when present. -/
def aupdate {β : Type} : List (Nat × β) → Nat → (β → β) → List (Nat × β)
  | [], _, _ => []
  | (k, w) :: rest, key, f =>
      if k = key then (k, f w) :: rest else (k, w) :: aupdate rest key f

/-- Map erase by key (`m.erase(key)`). -/
def aerase {β : Type} : List (Nat × β) → Nat → List (Nat × β)
  | [], _ => []
  | (k, w) :: rest, key => if k = key then rest else (k, w) :: aerase rest key

/-- Overwrite of a list node through an iterator:
`*it = b` where `it` points at the (unique) node holding `a`. -/
def replaceFirst : List Nat → Nat → Nat → List Nat
  | [], _, _ => []
  | x :: xs, a, b => if x = a then b :: xs else x :: replaceFirst xs a b

/-- Per-entity component mask: `std::bitset<MAX_COMPONENTS>`, modelled as the
set of bit positions that are set.  (`MAX_COMPONENTS = 64` only bounds how
many distinct component types may be registered; no claim involves more than
a handful.) -/
abbrev Mask := Finset Nat

/-! ### Component pools (`ComponentPool<T>` / `KeyedComponentPool<T>`) -/

/-- `ComponentPool<T>::Storage`: `(owning entity id, value, keyed-bucket link)`.
`keyedLink` models `keyedList != nullptr`; a linked record belongs to the
bucket of its (immutable) `value`, which is exactly the shared list its
`keyedList`/`keyedIterator` pair designates in the C++. -/
structure Storage where
  eid : Id
  value : Nat
  keyedLink : Bool
deriving DecidableEq, Repr

/-- A component pool.  `isKeyed` records the dynamic type
(`KeyedComponentPool<T>` vs plain `ComponentPool<T>`), deciding virtual
dispatch of `remove` and the `dynamic_cast`s in the entity manager.
In `entIndexToCompIndex`, a stored `none` models `INVALID_COMP_INDEX`. -/
structure Pool where
  components : List Storage
  entIndexToCompIndex : List (Nat × Option Nat)
  softRemoveMode : Bool
  /-- FIFO queue of slots awaiting real removal; head is the queue front. -/
  softRemoveCompIndexes : List Nat
  isKeyed : Bool
  /-- `KeyedComponentPool::compKeyToCompIndex`: value → bucket (list of record
  positions).  A live iteration collection adds a sentinel entry holding
  `INVALID_COMP_INDEX` at the end of its bucket. -/
  compKeyToCompIndex : List (Nat × List Nat)
deriving DecidableEq, Repr

/-- A freshly constructed pool of either dynamic type. -/
def Pool.mk0 (keyed : Bool) : Pool :=
  { components := [], entIndexToCompIndex := [], softRemoveMode := false,
    softRemoveCompIndexes := [], isKeyed := keyed, compKeyToCompIndex := [] }

/-- `ComponentPool::Size()`. -/
def Pool.Size (p : Pool) : Nat := p.components.length

/-- `ComponentPool::HasComponent(e)`: the reverse map has an entry for the
entity's index and it is not `INVALID_COMP_INDEX`. -/
def Pool.HasComponent (p : Pool) (e : Id) : Bool :=
  match alookup p.entIndexToCompIndex e.index with
  | some (some _) => true
  | _ => false

/-- `ComponentPool::entityAt(compIndex)`.  The source `Assert`s
`compIndex < Size()`; the out-of-range case (unreachable under the stated
invariants) is modelled as the null id. -/
def Pool.entityAt (p : Pool) (i : Nat) : Id :=
  ((p.components.get? i).map (·.eid)).getD Id.null

/-- `ComponentPool::Set(e, args...)`: unconditionally appends a new record at
`newCompIndex = components.size()` and repoints `entIndexToCompIndex[e.Index()]`
at it, returning the stored value. -/
def Pool.SetP (p : Pool) (e : Id) (v : Nat) : Pool :=
  { p with
    components := p.components ++ [⟨e, v, false⟩],
    entIndexToCompIndex := aset p.entIndexToCompIndex e.index (some p.components.length) }

/-- `KeyedComponentPool::Set(e, args...)`: appends the record (with a keyed
bucket link), repoints the reverse map, then links the new position into the
bucket of its value — at the end of the existing shared list if the key is
already present (`emplace(keyedList->end(), newCompIndex)`), else in a fresh
one-element bucket inserted into the key map. -/
def Pool.SetKeyed (p : Pool) (e : Id) (v : Nat) : Pool :=
  let n := p.components.length
  let buckets :=
    match alookup p.compKeyToCompIndex v with
    | some _ => aupdate p.compKeyToCompIndex v (fun l => l ++ [n])
    | none => p.compKeyToCompIndex ++ [(v, [n])]
  { p with
    components := p.components ++ [⟨e, v, true⟩],
    entIndexToCompIndex := aset p.entIndexToCompIndex e.index (some n),
    compKeyToCompIndex := buckets }

/-- `ComponentPool::Get(e)`: throws `runtime_error` when the entity has no
record; otherwise reads the record the reverse map points at (`components.at`
can throw `out_of_range` if that index dangles). -/
def Pool.Get (p : Pool) (e : Id) : Except Err Nat :=
  if ¬ p.HasComponent e then .error .runtime
  else
    match alookup p.entIndexToCompIndex e.index with
    | some (some ci) =>
        match p.components.get? ci with
        | some st => .ok st.value
        | none => .error .outOfRange
    | _ => .error .outOfRange

/-- `ComponentPool::remove(compIndex)` (the real, compacting removal of the
plain pool): if the slot is not the last one, move the last record into it and
repoint the moved record's reverse-map entry if its entity index has one; then
`pop_back`.  (`compIndex < components.size() - 1` is size_t arithmetic; no
caller reaches this function on an empty pool, where that comparison would
underflow and `back()` would be undefined behaviour.) -/
def Pool.removePlain (p : Pool) (compIndex : Nat) : Pool :=
  if compIndex < p.components.length - 1 then
    match p.components.getLast? with
    | some back =>
        { p with
          components := (p.components.set compIndex back).dropLast,
          entIndexToCompIndex :=
            if (alookup p.entIndexToCompIndex back.eid.index).isSome then
              aset p.entIndexToCompIndex back.eid.index (some compIndex)
            else p.entIndexToCompIndex }
    | none => p
  else { p with components := p.components.dropLast }

/-- `KeyedComponentPool::remove(compIndex)` (virtual override): `components.at`
first (can throw), then unlink the record from its keyed bucket — erasing the
bucket from the key map the moment the list becomes empty — then the same
swap-compaction as the plain pool, additionally rewriting the moved record's
bucket entry from its old position `size - 1` to `compIndex`. -/
def Pool.removeKeyed (p : Pool) (compIndex : Nat) : Except Err Pool :=
  match p.components.get? compIndex with
  | none => .error .outOfRange
  | some gone =>
      let buckets1 :=
        if gone.keyedLink then
          let erased := aupdate p.compKeyToCompIndex gone.value (fun l => l.erase compIndex)
          if (alookup erased gone.value).getD [] = [] then aerase erased gone.value
          else erased
        else p.compKeyToCompIndex
      let n := p.components.length
      if compIndex < n - 1 then
        match p.components.getLast? with
        | none => .error .outOfRange
        | some back =>
            .ok { p with
              components := (p.components.set compIndex back).dropLast,
              compKeyToCompIndex :=
                if back.keyedLink then
                  aupdate buckets1 back.value (fun l => replaceFirst l (n - 1) compIndex)
                else buckets1,
              entIndexToCompIndex :=
                if (alookup p.entIndexToCompIndex back.eid.index).isSome then
                  aset p.entIndexToCompIndex back.eid.index (some compIndex)
                else p.entIndexToCompIndex }
      else
        .ok { p with
          components := p.components.dropLast,
          compKeyToCompIndex := buckets1 }

/-- Virtual dispatch of the real removal on the pool's dynamic type. -/
def Pool.removeReal (p : Pool) (compIndex : Nat) : Except Err Pool :=
  if p.isKeyed then p.removeKeyed compIndex else .ok (p.removePlain compIndex)

/-- `ComponentPool::softRemove(compIndex)`: `Assert(compIndex < size)`, mark
the record's owner as the null entity and enqueue the slot index for deferred
real removal. -/
def Pool.softRemove (p : Pool) (compIndex : Nat) : Except Err Pool :=
  match p.components.get? compIndex with
  | some st =>
      .ok { p with
        components := p.components.set compIndex { st with eid := Id.null },
        softRemoveCompIndexes := p.softRemoveCompIndexes ++ [compIndex] }
  | none => .error .assertFail

/-- The assignment
`entIndexToCompIndex.at(e.Index()) = BaseComponentPool::INVALID_COMP_INDEX`
performed by `ComponentPool::Remove` before it dispatches. -/
def Pool.invalidateEnt (p : Pool) (e : Id) : Pool :=
  { p with entIndexToCompIndex := aset p.entIndexToCompIndex e.index none }

/-- `ComponentPool::Remove(e)`: throws when the entity has no record;
otherwise stores `INVALID_COMP_INDEX` in the reverse map and performs either a
soft removal (in soft-remove mode) or the real removal. -/
def Pool.Remove (p : Pool) (e : Id) : Except Err Pool :=
  if ¬ p.HasComponent e then .error .runtime
  else
    match alookup p.entIndexToCompIndex e.index with
    | some (some removeIndex) =>
        if p.softRemoveMode then (p.invalidateEnt e).softRemove removeIndex
        else (p.invalidateEnt e).removeReal removeIndex
    | _ => .error .outOfRange

/-- The drain loop of `toggleSoftRemove(false)`: pop the queue front and
really remove it, until the queue is empty.  `removeReal` never touches the
queue, so popping everything first and folding over the popped entries is the
same iteration. -/
def Pool.drain (p : Pool) : Except Err Pool :=
  foldE Pool.removeReal { p with softRemoveCompIndexes := [] }
    p.softRemoveCompIndexes

/-- `ComponentPool::toggleSoftRemove(enabled)`: enabling when already enabled
(or disabling when already disabled) is a `runtime_error`; disabling first
drains the deferred queue with real removals, then clears the flag. -/
def Pool.toggleSoftRemove (p : Pool) (enabled : Bool) : Except Err Pool :=
  if enabled then
    if p.softRemoveMode then .error .runtime
    else .ok { p with softRemoveMode := true }
  else
    if ¬ p.softRemoveMode then .error .runtime
    else
      match p.drain with
      | .error err => .error err
      | .ok p' => .ok { p' with softRemoveMode := false }

/-- `KeyedComponentPool::KeyedEntity(key)`: when the key has a bucket
(`count == 1`), build a collection on it (which appends a sentinel node) and
dereference its first node — the sentinel dereferences to the null id;
otherwise return the null id. -/
def Pool.KeyedEntity (p : Pool) (key : Nat) : Id :=
  match alookup p.compKeyToCompIndex key with
  | some bucket =>
      match (bucket ++ [INVALID_COMP_INDEX]).head? with
      | some idx => if idx = INVALID_COMP_INDEX then Id.null else p.entityAt idx
      | none => Id.null
  | none => Id.null

/-! ### The iteration protocol

`EntityManager::EntityCollection::Iterator` wraps a
`ComponentPoolEntityCollection::Iterator` (a cursor over record positions —
a `compIndex` for dense collections, a node of the shared bucket list for
keyed ones) and filters by the requested component mask: its constructor
skips forward from the initial position when that position does not satisfy
the mask, and `operator++` advances at least once and then keeps advancing
while the current entity's mask does not satisfy the requested one.  A
range-for loop therefore dereferences exactly the satisfying cursor
positions, in order.  `skipUnsat`/`iterVisits` express that protocol over
the list of cursor positions. -/

/-- Skip forward (zero or more steps) to the first satisfying position:
the constructor's initial skip, and the tail of `operator++`'s loop. -/
def skipUnsat {α : Type} (sat : α → Bool) : List α → List α
  | [] => []
  | x :: xs => if sat x then x :: xs else skipUnsat sat xs

theorem skipUnsat_length_le {α : Type} (sat : α → Bool) (xs : List α) :
    (skipUnsat sat xs).length ≤ xs.length := by
  induction xs with
  | nil => simp [skipUnsat]
  | cons x xs ih =>
      cases hs : sat x
      · simpa [skipUnsat, hs] using Nat.le_succ_of_le ih
      · simp [skipUnsat, hs]

/-- The loop of a range-for over the collection, with explicit fuel: skip to
the first satisfying position, visit it, advance-and-skip, and so on until
the end position.  Each visit consumes at least one position, so fueling the
loop with the position count makes the recursion structural without changing
its result (`iterLoop_congr_fuel`). -/
def iterLoop {α : Type} (sat : α → Bool) : Nat → List α → List α
  | 0, _ => []
  | fuel + 1, xs =>
      match skipUnsat sat xs with
      | [] => []
      | x :: rest => x :: iterLoop sat fuel rest

/-- The positions a range-for loop over the collection dereferences. -/
def iterVisits {α : Type} (sat : α → Bool) (xs : List α) : List α :=
  iterLoop sat xs.length xs

/-- The record-position cursor of an `EntityManager::EntityCollection`:
either the empty collection (`EntityCollection(em)` with a default
`ComponentPoolEntityCollection`), a dense pool collection that snapshots
`lastCompIndex = pool.Size() - 1` (in size_t arithmetic) at construction, or
a keyed collection walking one bucket's list up to its own sentinel node. -/
inductive Coll where
  | empty
  | ofPool (cmask : Mask) (poolIdx : Nat) (lastCompIndex : Nat)
  | ofKeyed (cmask : Mask) (poolIdx : Nat) (entries : List Nat)
deriving DecidableEq

/-- The iterator's mask test on a dereferenced entity:
`(em.compMgr.entCompMasks.at(e.Index()) & compMask) == compMask`.
An out-of-range index (which would throw in the source and is unreachable
under the stated invariants) is modelled as the empty mask. -/
def satisfiesMask (masks : List Mask) (cmask : Mask) (e : Id) : Bool :=
  decide ((((masks.get? e.index).getD ∅) ∩ cmask) = cmask)

/-- Entities a dense pool collection visits: cursor positions `0, …,
endPos - 1` filtered by the iterator protocol, dereferenced via `entityAt`. -/
def poolVisits (masks : List Mask) (cmask : Mask) (p : Pool) (endPos : Nat) :
    List Id :=
  (iterVisits (fun pos => satisfiesMask masks cmask (p.entityAt pos))
    (List.range endPos)).map p.entityAt

/-- Dereferencing a keyed cursor node:
`*iter == INVALID_COMP_INDEX ? Entity::Id() : pool->entityAt(*iter)`. -/
def keyedDeref (p : Pool) (idx : Nat) : Id :=
  if idx = INVALID_COMP_INDEX then Id.null else p.entityAt idx

/-- Entities a keyed collection visits: the bucket entries before the
collection's sentinel node, filtered by the iterator protocol. -/
def keyedVisits (masks : List Mask) (cmask : Mask) (p : Pool)
    (entries : List Nat) : List Id :=
  (iterVisits (fun idx => satisfiesMask masks cmask (keyedDeref p idx))
    entries).map (keyedDeref p)

/-! ### The component manager (`ComponentManager`, ComponentManagerImpl) -/

/-- `ComponentManager`: the type → bit/pool registry and the per-entity-index
component masks. -/
structure CompMgr where
  compTypeToCompIndex : List (Nat × Nat)
  componentPools : List Pool
  entCompMasks : List Mask
deriving DecidableEq

/-- `ComponentManager::RegisterComponentType<T>()`: `runtime_error` when the
type is already registered, else assign the next bit index and append a fresh
plain pool. -/
def CompMgr.RegisterComponentType (m : CompMgr) (t : Nat) : Except Err CompMgr :=
  if (alookup m.compTypeToCompIndex t).isSome then .error .runtime
  else .ok { m with
    compTypeToCompIndex := aset m.compTypeToCompIndex t m.componentPools.length,
    componentPools := m.componentPools ++ [Pool.mk0 false] }

/-- `ComponentManager::RegisterKeyedComponentType<T>()`: as above but the
fresh pool is a `KeyedComponentPool`. -/
def CompMgr.RegisterKeyedComponentType (m : CompMgr) (t : Nat) : Except Err CompMgr :=
  if (alookup m.compTypeToCompIndex t).isSome then .error .runtime
  else .ok { m with
    compTypeToCompIndex := aset m.compTypeToCompIndex t m.componentPools.length,
    componentPools := m.componentPools ++ [Pool.mk0 true] }

/-- The tail of `ComponentManager::Set<T>(e, args...)` once the type's bit
index `ci` is known: `Assert` the entity has a mask; set bit `ci` in it;
delegate to the (statically cast, hence plain) pool's `Set`; return the
stored value. -/
def CompMgr.setBody (m : CompMgr) (ci : Nat) (e : Id) (v : Nat) :
    Except Err (CompMgr × Nat) :=
  match m.entCompMasks.get? e.index with
  | none => .error .assertFail
  | some msk =>
      match m.componentPools.get? ci with
      | none => .error .outOfRange
      | some pool =>
          .ok ({ m with
            entCompMasks := m.entCompMasks.set e.index (insert ci msk),
            componentPools := m.componentPools.set ci (pool.SetP e v) }, v)

/-- `ComponentManager::Set<T>(e, args...)`: look the type's bit index up,
auto-registering the type on first use (the `catch std::out_of_range` path),
then run the body. -/
def CompMgr.SetC (m : CompMgr) (t : Nat) (e : Id) (v : Nat) :
    Except Err (CompMgr × Nat) :=
  match alookup m.compTypeToCompIndex t with
  | some ci => m.setBody ci e v
  | none =>
      match m.RegisterComponentType t with
      | .error err => .error err
      | .ok m' =>
          match alookup m'.compTypeToCompIndex t with
          | some ci => m'.setBody ci e v
          | none => .error .outOfRange

/-- The tail of `ComponentManager::SetKey<T>(e, args...)`: like `setBody` but
dispatches through a `dynamic_cast` to `KeyedComponentPool` — which the
source dereferences without a null check, so a type registered plain would
crash (modelled as a failure). -/
def CompMgr.setKeyBody (m : CompMgr) (ci : Nat) (e : Id) (v : Nat) :
    Except Err (CompMgr × Nat) :=
  match m.entCompMasks.get? e.index with
  | none => .error .assertFail
  | some msk =>
      match m.componentPools.get? ci with
      | none => .error .outOfRange
      | some pool =>
          if pool.isKeyed then
            .ok ({ m with
              entCompMasks := m.entCompMasks.set e.index (insert ci msk),
              componentPools := m.componentPools.set ci (pool.SetKeyed e v) }, v)
          else .error .assertFail

/-- `ComponentManager::SetKey<T>(e, args...)`: look the type's bit index up,
auto-registering a keyed type on first use, then run the keyed body. -/
def CompMgr.SetKey (m : CompMgr) (t : Nat) (e : Id) (v : Nat) :
    Except Err (CompMgr × Nat) :=
  match alookup m.compTypeToCompIndex t with
  | some ci => m.setKeyBody ci e v
  | none =>
      match m.RegisterKeyedComponentType t with
      | .error err => .error err
      | .ok m' =>
          match alookup m'.compTypeToCompIndex t with
          | some ci => m'.setKeyBody ci e v
          | none => .error .outOfRange

/-- `ComponentManager::Has<T>(e)`: `UnrecognizedComponentType` when the type
was never registered, else test the entity's mask bit
(`entCompMasks.at(e.Index())` can throw `out_of_range`). -/
def CompMgr.Has (m : CompMgr) (t : Nat) (e : Id) : Except Err Bool :=
  match alookup m.compTypeToCompIndex t with
  | none => .error .unrecognized
  | some ci =>
      match m.entCompMasks.get? e.index with
      | none => .error .outOfRange
      | some msk => .ok (decide (ci ∈ msk))

/-- `ComponentManager::Get<T>(e)`: `runtime_error` when `Has` reports false
(propagating `Has`'s own failures), else read through the pool. -/
def CompMgr.GetC (m : CompMgr) (t : Nat) (e : Id) : Except Err Nat :=
  match m.Has t e with
  | .error err => .error err
  | .ok h =>
      if ¬ h then .error .runtime
      else
        match alookup m.compTypeToCompIndex t with
        | none => .error .outOfRange
        | some ci =>
            match m.componentPools.get? ci with
            | none => .error .outOfRange
            | some pool => pool.Get e

/-- `ComponentManager::Remove<T>(e)`: `UnrecognizedComponentType` when the
type was never registered; `runtime_error` when the entity's mask bit is
unset; otherwise remove through the pool, then clear the mask bit. -/
def CompMgr.RemoveC (m : CompMgr) (t : Nat) (e : Id) : Except Err CompMgr :=
  match alookup m.compTypeToCompIndex t with
  | none => .error .unrecognized
  | some ci =>
      match m.entCompMasks.get? e.index with
      | none => .error .outOfRange
      | some msk =>
          if ¬ (ci ∈ msk) then .error .runtime
          else
            match m.componentPools.get? ci with
            | none => .error .outOfRange
            | some pool =>
                match pool.Remove e with
                | .error err => .error err
                | .ok pool' =>
                    .ok { m with
                      componentPools := m.componentPools.set ci pool',
                      entCompMasks := m.entCompMasks.set e.index (msk.erase ci) }

/-- One iteration of `ComponentManager::RemoveAll`'s loop at bit `i`:
if the entity's mask has bit `i`, remove through pool `i` and reset the bit. -/
def CompMgr.removeAllStep (e : Id) (m : CompMgr) (i : Nat) : Except Err CompMgr :=
  match m.entCompMasks.get? e.index with
  | none => .error .assertFail
  | some msk =>
      if i ∈ msk then
        match m.componentPools.get? i with
        | none => .error .outOfRange
        | some pool =>
            match pool.Remove e with
            | .error err => .error err
            | .ok pool' =>
                .ok { m with
                  componentPools := m.componentPools.set i pool',
                  entCompMasks := m.entCompMasks.set e.index (msk.erase i) }
      else .ok m

/-- `ComponentManager::RemoveAll(e)`: `Assert` the entity has a mask, remove
every set-bit component, and `Assert` the mask ends up blank. -/
def CompMgr.RemoveAll (m : CompMgr) (e : Id) : Except Err CompMgr :=
  if m.entCompMasks.length ≤ e.index then .error .assertFail
  else
    match foldE (CompMgr.removeAllStep e) m (List.range m.componentPools.length) with
    | .error err => .error err
    | .ok m' =>
        match m'.entCompMasks.get? e.index with
        | some msk => if msk = ∅ then .ok m' else .error .assertFail
        | none => .error .assertFail

/-- `ComponentManager::setMask(mask, typeId)`: `invalid_argument` for an
unregistered type, else set the type's bit. -/
def CompMgr.setMask (m : CompMgr) (mask : Mask) (t : Nat) : Except Err Mask :=
  match alookup m.compTypeToCompIndex t with
  | none => .error .invalidArg
  | some ci => .ok (insert ci mask)

/-- `ComponentManager::CreateMask<Types...>()`: fold `setMask` over the type
list starting from the blank mask (an empty list yields the blank mask). -/
def CompMgr.CreateMask (m : CompMgr) (ts : List Nat) : Except Err Mask :=
  foldE m.setMask ∅ ts

/-! ### The entity manager (`EntityManager`, EntityManagerImpl.hh) -/

/-- `EntityManager`: identity tables plus the component manager.  The free
list is FIFO (`std::queue`); head is the front.  The event/subscription
registries are not modelled (see the file comment). -/
structure EM where
  compMgr : CompMgr
  entIndexToGen : List Nat
  indexIsAlive : List Bool
  freeEntityIndexes : List Nat
deriving DecidableEq

/-- The `EntityManager` constructor: table entries for the null entity at
index 0, which is never considered alive. -/
def EM.init : EM :=
  { compMgr := { compTypeToCompIndex := [], componentPools := [], entCompMasks := [∅] },
    entIndexToGen := [0],
    indexIsAlive := [false],
    freeEntityIndexes := [] }

/-- `EntityManager::Valid(e)`: `e && e.Generation() == entIndexToGen.at(e.Index())`
— the `operator bool` of the id short-circuits the null id to false;
`at` throws for an index the tables have never allocated. -/
def EM.Valid (em : EM) (e : Id) : Except Err Bool :=
  if ¬ e.isNonNull then .ok false
  else
    match em.entIndexToGen.get? e.index with
    | some g => .ok (decide (e.gen = g))
    | none => .error .outOfRange

/-- `EntityManager::NewEntity()`: recycle the free-list front once the free
list has reached `ECS_ENTITY_RECYCLE_COUNT` (the index keeps its stored,
previously incremented generation and its mask is `Assert`ed blank), else
grow all three tables by one fresh index with generation 0. -/
def EM.NewEntity (em : EM) : Except Err (EM × Id) :=
  if em.freeEntityIndexes.length ≥ ECS_ENTITY_RECYCLE_COUNT then
    match em.freeEntityIndexes with
    | [] => .error .assertFail
    | i :: rest =>
        match em.entIndexToGen.get? i with
        | none => .error .outOfRange
        | some gen =>
            if (em.compMgr.entCompMasks.get? i).getD ∅ ≠ ∅ then .error .assertFail
            else .ok ({ em with
              freeEntityIndexes := rest,
              indexIsAlive := em.indexIsAlive.set i true }, ⟨i, gen⟩)
  else
    let i := em.entIndexToGen.length
    .ok ({ em with
      entIndexToGen := em.entIndexToGen ++ [0],
      indexIsAlive := em.indexIsAlive ++ [true],
      compMgr := { em.compMgr with entCompMasks := em.compMgr.entCompMasks ++ [∅] } },
      ⟨i, 0⟩)

/-- `EntityManager::Destroy(e)`: `invalid_argument` when `!Valid(e)`
(propagating `Valid`'s own `out_of_range`); `Assert` the index is alive; emit
`EntityDestruction` (a no-op here: no subscribers are modelled) and drop the
entity's event signals; remove all components; increment the stored
generation; enqueue the index on the free list; clear the alive flag. -/
def EM.Destroy (em : EM) (e : Id) : Except Err EM :=
  match em.Valid e with
  | .error err => .error err
  | .ok v =>
      if ¬ v then .error .invalidArg
      else if (em.indexIsAlive.get? e.index).getD false ≠ true then .error .assertFail
      else
        match em.compMgr.RemoveAll e with
        | .error err => .error err
        | .ok cm' =>
            match em.entIndexToGen.get? e.index with
            | none => .error .outOfRange
            | some g =>
                .ok { em with
                  compMgr := cm',
                  entIndexToGen := em.entIndexToGen.set e.index (g + 1),
                  freeEntityIndexes := em.freeEntityIndexes ++ [e.index],
                  indexIsAlive := em.indexIsAlive.set e.index false }

/-- Replace pool `i` of the manager (the in-place mutation performed through
the pool pointer in the source). -/
def EM.setPool (em : EM) (i : Nat) (p : Pool) : EM :=
  { em with compMgr := { em.compMgr with
      componentPools := em.compMgr.componentPools.set i p } }

/-- One iteration of `EntityManager::EntitiesWith(mask)`'s driving-pool
search at pool index `i`, carrying `(minSize, minSizeCompIndex)`:
skip unset mask bits; take pool `i`'s size when
`minSizeCompIndex == -1 || compSize < minSize`. -/
def findDrivingStep (cmask : Mask) (pools : List Pool) (st : Nat × Option Nat)
    (i : Nat) : Nat × Option Nat :=
  if i ∈ cmask then
    if st.2 = none ∨ ((pools.get? i).map Pool.Size).getD 0 < st.1 then
      (((pools.get? i).map Pool.Size).getD 0, some i)
    else st
  else st

/-- The driving-pool search of `EntityManager::EntitiesWith(mask)`: the
smallest pool among the mask's bits (first index wins ties); `none` when the
mask has no registered bit (`minSizeCompIndex` stays `-1`). -/
def findDriving (cmask : Mask) (pools : List Pool) : Option Nat :=
  ((List.range pools.length).foldl (findDrivingStep cmask pools)
    (2 ^ 64 - 1, none)).2

/-- `EntityManager::EntitiesWith(mask)`: find the driving pool — when no
requested bit exists, `componentPools.at(-1)` throws `out_of_range` — then
build the collection, snapshotting `lastCompIndex = Size() - 1` in size_t
arithmetic, and acquire the scoped iterate lock (soft-remove mode on). -/
def EM.EntitiesWithMask (em : EM) (cmask : Mask) : Except Err (EM × Coll) :=
  match findDriving cmask em.compMgr.componentPools with
  | none => .error .outOfRange
  | some mi =>
      match em.compMgr.componentPools.get? mi with
      | none => .error .outOfRange
      | some pool =>
          match pool.toggleSoftRemove true with
          | .error err => .error err
          | .ok pool' =>
              .ok (em.setPool mi pool',
                Coll.ofPool cmask mi ((pool.Size + (2 ^ 64 - 1)) % 2 ^ 64))

/-- `EntityManager::EntitiesWith<CompTypes...>()`: build the mask from the
template types, then query by mask. -/
def EM.EntitiesWithT (em : EM) (ts : List Nat) : Except Err (EM × Coll) :=
  match em.compMgr.CreateMask ts with
  | .error err => .error err
  | .ok mask => em.EntitiesWithMask mask

/-- `EntityManager::EntitiesWith<KeyType, CompTypes...>(key)`:
`UnrecognizedComponentType` when the key type was never registered; when its
pool is not a `KeyedComponentPool` (`dynamic_cast` yields null), an empty
collection; otherwise the keyed collection on the key's bucket (with its
sentinel; absent key gives the empty `ComponentPoolEntityCollection()`), with
the mask over all requested types and the iterate lock on the keyed pool. -/
def EM.EntitiesWithKey (em : EM) (t : Nat) (others : List Nat) (key : Nat) :
    Except Err (EM × Coll) :=
  match alookup em.compMgr.compTypeToCompIndex t with
  | none => .error .unrecognized
  | some ci =>
      match em.compMgr.componentPools.get? ci with
      | none => .error .outOfRange
      | some pool =>
          if pool.isKeyed then
            match em.compMgr.CreateMask (t :: others) with
            | .error err => .error err
            | .ok mask =>
                match pool.toggleSoftRemove true with
                | .error err => .error err
                | .ok pool' =>
                    match alookup pool.compKeyToCompIndex key with
                    | some bucket =>
                        .ok (em.setPool ci pool', Coll.ofKeyed mask ci bucket)
                    | none => .ok (em.setPool ci pool', Coll.empty)
          else .ok (em, Coll.empty)

/-- `EntityManager::EntityWith<KeyType>(key)`: `UnrecognizedComponentType`
when the key type was never registered; the null entity when its pool is not
keyed; else `KeyedComponentPool::KeyedEntity(key)`. -/
def EM.EntityWithKey (em : EM) (t : Nat) (key : Nat) : Except Err Id :=
  match alookup em.compMgr.compTypeToCompIndex t with
  | none => .error .unrecognized
  | some ci =>
      match em.compMgr.componentPools.get? ci with
      | none => .error .outOfRange
      | some pool =>
          if pool.isKeyed then .ok (pool.KeyedEntity key) else .ok Id.null

/-- The entities a collection's range-for loop visits, in order, evaluated
against the manager state `em`. -/
def EM.collVisits (em : EM) : Coll → List Id
  | .empty => []
  | .ofPool cmask pi last =>
      match em.compMgr.componentPools.get? pi with
      | some p =>
          poolVisits em.compMgr.entCompMasks cmask p ((last + 1) % 2 ^ 64)
      | none => []
  | .ofKeyed cmask pi entries =>
      match em.compMgr.componentPools.get? pi with
      | some p =>
          keyedVisits em.compMgr.entCompMasks cmask p
            (entries.takeWhile (fun j => decide (j ≠ INVALID_COMP_INDEX)))
      | none => []

/-- A live entity: its index is alive and its generation is the stored one
(data-model invariant 2 of the spec). -/
def EM.LiveEnt (em : EM) (e : Id) : Prop :=
  em.indexIsAlive.get? e.index = some true ∧
  em.entIndexToGen.get? e.index = some e.gen

instance (em : EM) (e : Id) : Decidable (em.LiveEnt e) := by
  unfold EM.LiveEnt; infer_instance

/-! ### Basic facts about the container helpers -/

theorem get?_set_self {α : Type} :
    ∀ (l : List α) (i : Nat) (a : α), i < l.length → (l.set i a).get? i = some a
  | [], i, a, h => by simp at h
  | x :: xs, 0, a, _ => rfl
  | x :: xs, i + 1, a, h => by
      simpa [List.set, List.get?] using get?_set_self xs i a (by simpa using h)

theorem get?_set_ne {α : Type} :
    ∀ (l : List α) (i j : Nat) (a : α), i ≠ j → (l.set i a).get? j = l.get? j
  | [], _, _, _, _ => rfl
  | x :: xs, 0, 0, a, h => absurd rfl h
  | x :: xs, 0, j + 1, a, _ => rfl
  | x :: xs, i + 1, 0, a, _ => rfl
  | x :: xs, i + 1, j + 1, a, h => by
      simpa [List.set, List.get?] using get?_set_ne xs i j a (fun hc => h (by omega))

theorem get?_append_lt {α : Type} :
    ∀ (l₁ l₂ : List α) (i : Nat), i < l₁.length → (l₁ ++ l₂).get? i = l₁.get? i
  | [], _, i, h => by simp at h
  | x :: xs, l₂, 0, _ => rfl
  | x :: xs, l₂, i + 1, h => by
      simpa [List.get?] using get?_append_lt xs l₂ i (by simpa using h)

theorem get?_append_self {α : Type} (l : List α) (a : α) :
    (l ++ [a]).get? l.length = some a := by
  induction l with
  | nil => rfl
  | cons x xs ih => simp only [List.cons_append, List.length_cons, List.get?]; exact ih

theorem get?_dropLast {α : Type} :
    ∀ (l : List α) (i : Nat), i < l.length - 1 → l.dropLast.get? i = l.get? i
  | [], i, h => by simp at h
  | [x], i, h => by simp at h
  | x :: y :: rest, 0, _ => rfl
  | x :: y :: rest, i + 1, h => by
      simpa [List.dropLast, List.get?] using
        get?_dropLast (y :: rest) i (by simpa using Nat.lt_of_succ_lt_succ (by simpa using h))

theorem alookup_aset_self {β : Type} :
    ∀ (l : List (Nat × β)) (k : Nat) (v : β), alookup (aset l k v) k = some v
  | [], k, v => by simp [aset, alookup]
  | (k', w) :: rest, k, v => by
      by_cases h : k' = k
      · simp [aset, alookup, h]
      · simp only [aset, alookup, h, if_neg, if_false]
        simpa [alookup, h] using alookup_aset_self rest k v

theorem alookup_aset_ne {β : Type} :
    ∀ (l : List (Nat × β)) (k k' : Nat) (v : β), k ≠ k' →
      alookup (aset l k v) k' = alookup l k'
  | [], k, k', v, h => by simp [aset, alookup, h]
  | (k₀, w) :: rest, k, k', v, h => by
      by_cases h0 : k₀ = k
      · subst h0; simp [aset, alookup, h]
      · simp only [aset, h0, if_false]
        by_cases h1 : k₀ = k'
        · simp [alookup, h1]
        · simpa [alookup, h1] using alookup_aset_ne rest k k' v h

theorem alookup_aupdate_self {β : Type} :
    ∀ (l : List (Nat × β)) (k : Nat) (f : β → β),
      alookup (aupdate l k f) k = (alookup l k).map f
  | [], k, f => by simp [aupdate, alookup]
  | (k', w) :: rest, k, f => by
      by_cases h : k' = k
      · simp [aupdate, alookup, h]
      · simpa [aupdate, alookup, h] using alookup_aupdate_self rest k f

theorem alookup_aupdate_ne {β : Type} :
    ∀ (l : List (Nat × β)) (k k' : Nat) (f : β → β), k ≠ k' →
      alookup (aupdate l k f) k' = alookup l k'
  | [], _, _, _, _ => rfl
  | (k₀, w) :: rest, k, k', f, h => by
      by_cases h0 : k₀ = k
      · subst h0; simp [aupdate, alookup, h]
      · by_cases h1 : k₀ = k'
        · simp [aupdate, alookup, h0, h1, Ne.symm h]
        · simpa [aupdate, alookup, h0, h1] using alookup_aupdate_ne rest k k' f h

theorem alookup_aerase_ne {β : Type} :
    ∀ (l : List (Nat × β)) (k k' : Nat), k ≠ k' →
      alookup (aerase l k) k' = alookup l k'
  | [], _, _, _ => rfl
  | (k₀, w) :: rest, k, k', h => by
      by_cases h0 : k₀ = k
      · subst h0; simp [aerase, alookup, h]
      · by_cases h1 : k₀ = k'
        · simp [aerase, alookup, h0, h1, Ne.symm h]
        · simpa [aerase, alookup, h0, h1] using alookup_aerase_ne rest k k' h

/-- Erasing a key removes it, provided the association list never stores a
key twice (which holds for every map the sources build). -/
theorem alookup_aerase_self {β : Type} :
    ∀ (l : List (Nat × β)) (k : Nat), (l.map Prod.fst).Nodup →
      alookup (aerase l k) k = none
  | [], k, _ => rfl
  | (k₀, w) :: rest, k, hnd => by
      have hnd' : (rest.map Prod.fst).Nodup := by
        simpa using (List.nodup_cons.mp (by simpa using hnd)).2
      by_cases h0 : k₀ = k
      · subst h0
        have hk : k₀ ∉ rest.map Prod.fst :=
          (List.nodup_cons.mp (by simpa using hnd)).1
        clear hnd hnd'
        induction rest with
        | nil => simp [aerase, alookup]
        | cons p rest ih =>
            simp only [List.map_cons, List.mem_cons, not_or] at hk
            simpa [aerase, alookup, Ne.symm hk.1] using ih hk.2
      · simpa [aerase, alookup, h0] using alookup_aerase_self rest k hnd'

/-! ### The iteration protocol visits exactly the satisfying positions -/

theorem skipUnsat_filter {α : Type} (sat : α → Bool) (xs : List α) :
    (skipUnsat sat xs).filter sat = xs.filter sat := by
  induction xs with
  | nil => rfl
  | cons x xs ih =>
      cases hs : sat x
      · simpa [skipUnsat, hs, List.filter_cons, hs] using ih
      · simp [skipUnsat, hs]

theorem skipUnsat_head_sat {α : Type} {sat : α → Bool} :
    ∀ {xs x : _} {rest : List α}, skipUnsat sat xs = x :: rest → sat x = true := by
  intro xs
  induction xs with
  | nil => intro x rest h; simp [skipUnsat] at h
  | cons y ys ih =>
      intro x rest h
      cases hs : sat y
      · exact ih (by simpa [skipUnsat, hs] using h)
      · rw [skipUnsat, hs, if_pos rfl] at h
        cases h; assumption

theorem iterLoop_eq_filter {α : Type} (sat : α → Bool) :
    ∀ (fuel : Nat) (xs : List α), xs.length ≤ fuel →
      iterLoop sat fuel xs = xs.filter sat := by
  intro fuel
  induction fuel with
  | zero =>
      intro xs h
      rw [Nat.le_zero, List.length_eq_zero] at h
      subst h; rfl
  | succ fuel ih =>
      intro xs h
      cases hs : skipUnsat sat xs with
      | nil =>
          have hflt := skipUnsat_filter sat xs
          rw [hs] at hflt
          simp only [iterLoop, hs]
          simpa using hflt.symm
      | cons x rest =>
          have hsat : sat x = true := skipUnsat_head_sat hs
          have hflt := skipUnsat_filter sat xs
          rw [hs] at hflt
          have hlen : rest.length ≤ fuel := by
            have := skipUnsat_length_le sat xs
            rw [hs] at this
            simp only [List.length_cons] at this
            omega
          simp only [iterLoop, hs]
          rw [ih rest hlen, ← hflt]
          simp [List.filter_cons, hsat]

/-- The iterator protocol — skip-forward at construction, then
advance-and-skip — dereferences exactly the mask-satisfying positions. -/
theorem iterVisits_eq_filter {α : Type} (sat : α → Bool) (xs : List α) :
    iterVisits sat xs = xs.filter sat :=
  iterLoop_eq_filter sat xs.length xs le_rfl

/-- size_t arithmetic of the `lastCompIndex` snapshot: for any pool size
below `2^64`, `(Size() - 1) + 1` wraps back to the size (in particular an
empty pool yields end position 0). -/
theorem lastWrap (n : Nat) (h : n < 2 ^ 64) :
    ((n + (2 ^ 64 - 1)) % 2 ^ 64 + 1) % 2 ^ 64 = n := by
  omega

theorem get?_some_lt {α : Type} {l : List α} {i : Nat} {a : α}
    (h : l.get? i = some a) : i < l.length := by
  by_contra hc
  push_neg at hc
  rw [List.get?_eq_none.mpr hc] at h
  cases h

/-! ### Facts about pool `Set` -/

theorem Pool.SetP_HasComponent (p : Pool) (e : Id) (v : Nat) :
    (p.SetP e v).HasComponent e = true := by
  simp [Pool.SetP, Pool.HasComponent, alookup_aset_self]

theorem Pool.SetP_Get (p : Pool) (e : Id) (v : Nat) :
    (p.SetP e v).Get e = .ok v := by
  simp only [Pool.Get, Pool.SetP_HasComponent, Bool.true_eq_false, not_false_eq_true,
    not_true_eq_false, if_false]
  simp [Pool.SetP, alookup_aset_self, get?_append_self]

/-- Success of `setBody` pins down the produced state. -/
theorem setBody_ok (m : CompMgr) (ci : Nat) (e : Id) (v : Nat)
    (m' : CompMgr) (v' : Nat) (hset : m.setBody ci e v = .ok (m', v')) :
    ∃ msk pool, m.entCompMasks.get? e.index = some msk ∧
      m.componentPools.get? ci = some pool ∧ v' = v ∧
      m' = { m with
        entCompMasks := m.entCompMasks.set e.index (insert ci msk),
        componentPools := m.componentPools.set ci (pool.SetP e v) } := by
  unfold CompMgr.setBody at hset
  cases hmk : m.entCompMasks.get? e.index with
  | none => simp only [hmk] at hset; exact Except.noConfusion hset
  | some msk =>
      simp only [hmk] at hset
      cases hpool : m.componentPools.get? ci with
      | none => simp only [hpool] at hset; exact Except.noConfusion hset
      | some pool =>
          simp only [hpool] at hset
          cases hset
          exact ⟨msk, pool, rfl, rfl, rfl, rfl⟩

/-- Success of `Set<T>` factors through `setBody` on a manager whose mask
table is that of the input and in which `T` is registered. -/
theorem SetC_ok (m : CompMgr) (t : Nat) (e : Id) (v : Nat)
    (m' : CompMgr) (v' : Nat) (hset : m.SetC t e v = .ok (m', v')) :
    ∃ (m0 : CompMgr) (ci : Nat), alookup m0.compTypeToCompIndex t = some ci ∧
      m0.entCompMasks = m.entCompMasks ∧
      m0.setBody ci e v = .ok (m', v') := by
  unfold CompMgr.SetC at hset
  cases halo : alookup m.compTypeToCompIndex t with
  | some ci =>
      simp only [halo] at hset
      exact ⟨m, ci, halo, rfl, hset⟩
  | none =>
      have hreg : m.RegisterComponentType t = .ok { m with
          compTypeToCompIndex := aset m.compTypeToCompIndex t m.componentPools.length,
          componentPools := m.componentPools ++ [Pool.mk0 false] } := by
        unfold CompMgr.RegisterComponentType
        rw [halo]
        rfl
      simp only [halo, hreg] at hset
      refine ⟨{ m with
          compTypeToCompIndex := aset m.compTypeToCompIndex t m.componentPools.length,
          componentPools := m.componentPools ++ [Pool.mk0 false] },
        m.componentPools.length, alookup_aset_self _ _ _, rfl, ?_⟩
      rw [alookup_aset_self] at hset
      exact hset

/-- When `Has` reports true, `Get` delegates to the pool. -/
theorem GetC_of_has_true (m : CompMgr) (t : Nat) (e : Id) (ci : Nat) (pool : Pool)
    (hhas : m.Has t e = .ok true)
    (halo : alookup m.compTypeToCompIndex t = some ci)
    (hpool : m.componentPools.get? ci = some pool) :
    m.GetC t e = pool.Get e := by
  unfold CompMgr.GetC
  simp only [hhas, halo, hpool]
  simp

/-- When `Has` reports false, `Get` fails with the not-found error. -/
theorem GetC_of_has_false (m : CompMgr) (t : Nat) (e : Id)
    (hhas : m.Has t e = .ok false) :
    m.GetC t e = .error .runtime := by
  unfold CompMgr.GetC
  simp only [hhas]
  simp

/-! ### Claim C4 -/

/-- C4: for every entity `e`, immediately after `Set<T>(e, …)` succeeds,
`Has<T>(e)` returns true and `Get<T>(e)` returns the just-set value, and
immediately after `Remove<T>(e)` succeeds, `Has<T>(e)` returns false and
`Get<T>(e)` fails (with the not-found `runtime_error`). -/
theorem c4_set_remove_observability (m : CompMgr) (t : Nat) (e : Id) (v : Nat) :
    (∀ m' v', m.SetC t e v = .ok (m', v') →
        m'.Has t e = .ok true ∧ m'.GetC t e = .ok v) ∧
    (∀ m2, m.RemoveC t e = .ok m2 →
        m2.Has t e = .ok false ∧ m2.GetC t e = .error .runtime) := by
  constructor
  · intro m' v' hset
    obtain ⟨m0, ci, halo0, _, hbody⟩ := SetC_ok m t e v m' v' hset
    obtain ⟨msk, pool, hmk, hpool, hv, hm'⟩ := setBody_ok m0 ci e v m' v' hbody
    have hlt : e.index < m0.entCompMasks.length := get?_some_lt hmk
    have hltp : ci < m0.componentPools.length := get?_some_lt hpool
    have hhas : m'.Has t e = .ok true := by
      subst hm'
      simp only [CompMgr.Has, halo0]
      rw [get?_set_self _ _ _ hlt]
      simp
    refine ⟨hhas, ?_⟩
    have hpool' : m'.componentPools.get? ci = some (pool.SetP e v) := by
      subst hm'
      exact get?_set_self _ _ _ hltp
    have halo' : alookup m'.compTypeToCompIndex t = some ci := by
      subst hm'; exact halo0
    rw [GetC_of_has_true m' t e ci (pool.SetP e v) hhas halo' hpool']
    exact Pool.SetP_Get pool e v
  · intro m2 hrem
    unfold CompMgr.RemoveC at hrem
    cases halo : alookup m.compTypeToCompIndex t with
    | none => simp only [halo] at hrem; exact Except.noConfusion hrem
    | some ci =>
        simp only [halo] at hrem
        cases hmk : m.entCompMasks.get? e.index with
        | none => simp only [hmk] at hrem; exact Except.noConfusion hrem
        | some msk =>
            simp only [hmk] at hrem
            by_cases hin : ci ∈ msk
            · rw [if_neg (fun hc => hc hin)] at hrem
              cases hpool : m.componentPools.get? ci with
              | none => simp only [hpool] at hrem; exact Except.noConfusion hrem
              | some pool =>
                  simp only [hpool] at hrem
                  cases hrm : pool.Remove e with
                  | error err => simp only [hrm] at hrem; exact Except.noConfusion hrem
                  | ok pool' =>
                      simp only [hrm] at hrem
                      have hm2 : m2 = { m with
                          componentPools := m.componentPools.set ci pool',
                          entCompMasks :=
                            m.entCompMasks.set e.index (msk.erase ci) } := by
                        cases hrem; rfl
                      have hlt : e.index < m.entCompMasks.length := get?_some_lt hmk
                      have hhas : m2.Has t e = .ok false := by
                        subst hm2
                        simp only [CompMgr.Has, halo]
                        rw [get?_set_self _ _ _ hlt]
                        simp
                      exact ⟨hhas, GetC_of_has_false m2 t e hhas⟩
            · rw [if_pos hin] at hrem
              exact Except.noConfusion hrem

/-- A concrete manager: type 0 registered as a plain pool; entity indices 0
and 1 have masks. -/
def c4m : CompMgr :=
  { compTypeToCompIndex := [(0, 0)], componentPools := [Pool.mk0 false],
    entCompMasks := [∅, ∅] }

def c4e : Id := ⟨1, 0⟩

/-- The manager after `Set<0>(c4e, 5)`. -/
def c4mAfter : CompMgr :=
  match c4m.SetC 0 c4e 5 with
  | .ok (m', _) => m'
  | .error _ => c4m

/-- The manager after the subsequent `Remove<0>(c4e)`. -/
def c4mRem : CompMgr :=
  match c4mAfter.RemoveC 0 c4e with
  | .ok m2 => m2
  | .error _ => c4mAfter

theorem c4_set_remove_observability_witness :
    c4m.SetC 0 c4e 5 = .ok (c4mAfter, 5) ∧
    (c4mAfter.Has 0 c4e = .ok true ∧ c4mAfter.GetC 0 c4e = .ok 5) ∧
    c4mAfter.RemoveC 0 c4e = .ok c4mRem ∧
    (c4mRem.Has 0 c4e = .ok false ∧ c4mRem.GetC 0 c4e = .error .runtime) :=
  ⟨by decide,
   (c4_set_remove_observability c4m 0 c4e 5).1 c4mAfter 5 (by decide),
   by decide,
   (c4_set_remove_observability c4mAfter 0 c4e 5).2 c4mRem (by decide)⟩

/-! ### Claim C6 -/

/-- The manager after a single `NewEntity()`. -/
def c6em0 : EM :=
  match EM.init.NewEntity with
  | .ok (em, _) => em
  | .error _ => EM.init

/-- The manager after destroying that entity: index 1 has stored generation 1
and a cleared alive flag. -/
def c6em : EM :=
  match c6em0.Destroy ⟨1, 0⟩ with
  | .ok em => em
  | .error _ => c6em0

/-- C6 counterexample: in the state reached by `NewEntity(); Destroy(...)`,
the id `(1, 1)` has a matching stored generation but a cleared alive flag,
and `Valid` nevertheless returns true — the alive flag is not consulted, so
"true iff the alive flag is set AND the generation matches" is false. -/
theorem c6_valid_ignores_alive_flag :
    c6em.Valid ⟨1, 1⟩ = .ok true ∧ c6em.indexIsAlive.get? 1 = some false := by
  decide

/-- C6 (amended): `Valid` returns true iff the id is non-null (its
`operator bool`) and the supplied generation equals the stored one; the alive
flag plays no part.  (For any id ever handed out by `NewEntity` and not
re-issued, the two formulations agree; they diverge on ids forged for a
destroyed index, as the counterexample shows.) -/
theorem c6_valid_amended (em : EM) (e : Id)
    (h : e = Id.null ∨ e.index < em.entIndexToGen.length) :
    em.Valid e =
      .ok (decide (e ≠ Id.null) &&
        decide (em.entIndexToGen.get? e.index = some e.gen)) := by
  by_cases hnull : e = Id.null
  · subst hnull
    simp [EM.Valid, Id.isNonNull]
  · have hlt : e.index < em.entIndexToGen.length := h.resolve_left hnull
    cases hg : em.entIndexToGen.get? e.index with
    | none =>
        have := List.get?_eq_none.mp hg
        omega
    | some g =>
        simp only [EM.Valid, Id.isNonNull, hnull, decide_not, hg]
        simp [hnull, eq_comm]

theorem c6_valid_amended_witness :
    ((⟨1, 1⟩ : Id) = Id.null ∨ (1 : Nat) < c6em.entIndexToGen.length) ∧
    c6em.Valid ⟨1, 1⟩ =
      .ok (decide ((⟨1, 1⟩ : Id) ≠ Id.null) &&
        decide (c6em.entIndexToGen.get? 1 = some 1)) :=
  ⟨by decide, c6_valid_amended c6em ⟨1, 1⟩ (by decide)⟩

/-! ### Claim C5 -/

/-- A manager with plain type 0 registered and masks for indices 0 and 1. -/
def c5m : CompMgr :=
  { compTypeToCompIndex := [(0, 0)], componentPools := [Pool.mk0 false],
    entCompMasks := [∅, ∅] }

/-- The manager after `Set<0>((1,0), 5); Set<0>((1,0), 7)` — two public `Set`
calls on the same entity without an intervening `Remove`. -/
def c5after : CompMgr :=
  match c5m.SetC 0 ⟨1, 0⟩ 5 with
  | .ok (m1, _) =>
      match m1.SetC 0 ⟨1, 0⟩ 7 with
      | .ok (m2, _) => m2
      | .error _ => m1
  | .error _ => c5m

/-- C5 counterexample: after a second `Set` on the same entity the pool holds
TWO records owned by entity `(1,0)` — `ComponentPool::Set` appends
unconditionally and never overwrites in place, so the no-duplicate invariant
fails after a public operation.  (Only the newer record is reachable through
the reverse map.) -/
theorem c5_set_duplicates_owner :
    (c5after.componentPools.get? 0).map (fun p => p.components.map (·.eid)) =
      some [⟨1, 0⟩, ⟨1, 0⟩] ∧
    (c5after.componentPools.get? 0).map
        (fun p => (p.components.filter (fun st => st.eid = ⟨1, 0⟩)).length) =
      some 2 ∧
    c5after.GetC 0 ⟨1, 0⟩ = .ok 7 := by
  decide

/-- C5 (amended): `ComponentPool::Set` always appends a fresh record at the
end of the array and repoints the entity's reverse-map entry at it; when the
entity had no record before, the pool ends up with exactly one record owned
by it.  A repeated `Set` leaves the prior record in the array (the
counterexample), so only entities that are `Set` at most once between
removals satisfy the one-record-per-entity invariant. -/
theorem c5_set_appends (p : Pool) (e : Id) (v : Nat) :
    (p.SetP e v).components = p.components ++ [⟨e, v, false⟩] ∧
    alookup (p.SetP e v).entIndexToCompIndex e.index =
      some (some p.components.length) ∧
    ((p.components.filter (fun st => st.eid = e)).length = 0 →
      ((p.SetP e v).components.filter (fun st => st.eid = e)).length = 1) := by
  refine ⟨rfl, alookup_aset_self _ _ _, ?_⟩
  intro h0
  simp only [Pool.SetP, List.filter_append]
  rw [List.length_append]
  rw [List.length_eq_zero] at h0
  simp [h0]

theorem c5_set_appends_witness :
    (((Pool.mk0 false).components.filter
        (fun st => st.eid = (⟨1, 0⟩ : Id))).length = 0) ∧
    ((((Pool.mk0 false).SetP ⟨1, 0⟩ 5).components.filter
        (fun st => st.eid = (⟨1, 0⟩ : Id))).length = 1) :=
  ⟨by decide, (c5_set_appends (Pool.mk0 false) ⟨1, 0⟩ 5).2.2 (by decide)⟩

/-! ### Claim C2 -/

/-- A plain pool with three records, owned by entities 1, 2 and 3. -/
def c2p0 : Pool :=
  ((Pool.mk0 false).SetP ⟨1, 0⟩ 10 |>.SetP ⟨2, 0⟩ 20 |>.SetP ⟨3, 0⟩ 30)

/-- The pool under an iterate lock after removing entity 1's and then
entity 3's components (both soft-removed). -/
def c2soft : Pool :=
  match c2p0.toggleSoftRemove true with
  | .ok p1 =>
      match p1.Remove ⟨1, 0⟩ with
      | .ok p2 =>
          match p2.Remove ⟨3, 0⟩ with
          | .ok p3 => p3
          | .error _ => p2
      | .error _ => p1
  | .error _ => c2p0

/-- The pool after the iterate lock is released (`toggleSoftRemove(false)`
drains the deferred queue). -/
def c2rel : Pool :=
  match c2soft.toggleSoftRemove false with
  | .ok p => p
  | .error _ => c2soft

/-- C2: the first half of the claim holds — while the lock is held each
`Remove` keeps `Size()` unchanged, marks the slot's owner as the null
identity and enqueues the slot — but the release does NOT really remove
every enqueued slot.  Draining the queue `[0, 2]` on a 3-record pool first
swap-moves the soft-removed record from slot 2 into slot 0, then `remove(2)`
pops the pool's *live* record (entity 2's): the released pool consists of one
null-owned record, entity 2's component has vanished while its reverse-map
entry still dangles (`HasComponent` true, `Get` throws `out_of_range`). -/
theorem c2_soft_remove_drain_bug :
    (c2soft.Size = 3 ∧
      c2soft.components.map (·.eid) = [Id.null, ⟨2, 0⟩, Id.null] ∧
      c2soft.softRemoveCompIndexes = [0, 2] ∧
      c2soft.softRemoveMode = true) ∧
    (c2rel.softRemoveMode = false ∧
      c2rel.components.map (·.eid) = [Id.null] ∧
      c2rel.HasComponent ⟨2, 0⟩ = true ∧
      c2rel.Get ⟨2, 0⟩ = .error .outOfRange) := by
  decide

/-! ### Decidability and counting helpers for the destroy/removal claims -/

/-- Propositions of the form "whatever this optional value holds satisfies
`Q`" are decidable; this lets concrete witnesses discharge the well-formedness
hypotheses below by `decide`. -/
instance decidableOptionSome {α : Type} [DecidableEq α] (o : Option α)
    (Q : α → Prop) [∀ a, Decidable (Q a)] : Decidable (∀ a, o = some a → Q a) :=
  match o with
  | none => isTrue (by intro a h; cases h)
  | some x =>
      decidable_of_iff (Q x)
        ⟨fun h a ha => by cases ha; exact h, fun h => h x rfl⟩

/-- Two distinct positions holding satisfying elements force the filtered
length to at least two. -/
theorem two_le_filter {α : Type} (p : α → Bool) :
    ∀ (l : List α) (i j : Nat) (a b : α), i < j →
      l.get? i = some a → l.get? j = some b → p a = true → p b = true →
      2 ≤ (l.filter p).length
  | [], i, j, a, b, _, ha, _, _, _ => by cases ha
  | x :: xs, 0, j + 1, a, b, _, ha, hb, hpa, hpb => by
      cases ha
      have hmem : b ∈ xs := by
        have hj : xs.get? j = some b := hb
        exact List.get?_mem hj
      have hbf : b ∈ xs.filter p := List.mem_filter.mpr ⟨hmem, hpb⟩
      have h1 : 1 ≤ (xs.filter p).length := List.length_pos_of_mem hbf
      simpa [List.filter_cons, hpa] using Nat.succ_le_succ h1
  | x :: xs, i + 1, j + 1, a, b, hij, ha, hb, hpa, hpb => by
      have ih := two_le_filter p xs i j a b (by omega) ha hb hpa hpb
      by_cases hx : p x = true
      · simp only [List.filter_cons, hx, if_pos, List.length_cons]
        omega
      · simpa [List.filter_cons, hx] using ih

theorem getLast?_eq_get? {α : Type} :
    ∀ (l : List α), l.getLast? = l.get? (l.length - 1)
  | [] => rfl
  | [x] => rfl
  | x :: y :: rest => by
      have ih := getLast?_eq_get? (y :: rest)
      simp only [List.getLast?_cons_cons, List.length_cons]
      simpa using ih

/-- The reverse map points (when it points anywhere) at a record owned by the
entity's index — the reverse-map half of the spec's invariant 3/4, for one
entity and one pool. -/
def PoolMapOwner (e : Id) (pool : Pool) : Prop :=
  ∀ o, alookup pool.entIndexToCompIndex e.index = some o →
    ∀ ri, o = some ri →
      ∀ st, pool.components.get? ri = some st → st.eid.index = e.index

instance (e : Id) (pool : Pool) : Decidable (PoolMapOwner e pool) := by
  unfold PoolMapOwner
  infer_instance

/-- The number of records a pool holds for an entity index. -/
def ownCount (e : Id) (pool : Pool) : Nat :=
  (pool.components.filter (fun st => st.eid.index = e.index)).length

/-- The swap-compaction of the plain pool leaves an invalidated reverse-map
entry invalid, provided the moved record's owner has a different index. -/
theorem removePlain_has_false (p1 : Pool) (e : Id) (ri : Nat)
    (h1 : alookup p1.entIndexToCompIndex e.index = some none)
    (hb : ∀ back : Storage,
        p1.components.get? (p1.components.length - 1) = some back →
        ri < p1.components.length - 1 → back.eid.index ≠ e.index) :
    (p1.removePlain ri).HasComponent e = false := by
  by_cases hlt : ri < p1.components.length - 1
  · cases hgl : p1.components.getLast? with
    | none =>
        have hres : p1.removePlain ri = p1 := by
          unfold Pool.removePlain
          rw [if_pos hlt, hgl]
        unfold Pool.HasComponent
        rw [hres, h1]
    | some back =>
        have hbne : back.eid.index ≠ e.index :=
          hb back (by rw [← getLast?_eq_get?]; exact hgl) hlt
        have hres : (p1.removePlain ri).entIndexToCompIndex =
            if (alookup p1.entIndexToCompIndex back.eid.index).isSome then
              aset p1.entIndexToCompIndex back.eid.index (some ri)
            else p1.entIndexToCompIndex := by
          unfold Pool.removePlain
          rw [if_pos hlt, hgl]
        unfold Pool.HasComponent
        rw [hres]
        by_cases hs : (alookup p1.entIndexToCompIndex back.eid.index).isSome = true
        · rw [if_pos hs, alookup_aset_ne _ _ _ _ hbne, h1]
        · rw [if_neg hs, h1]
  · have hres : (p1.removePlain ri).entIndexToCompIndex = p1.entIndexToCompIndex := by
      unfold Pool.removePlain
      rw [if_neg hlt]
    unfold Pool.HasComponent
    rw [hres, h1]

/-- The keyed pool's swap-compaction likewise leaves an invalidated
reverse-map entry invalid (the bucket bookkeeping never touches the reverse
map). -/
theorem removeKeyed_has_false (p1 : Pool) (e : Id) (ri : Nat) (p' : Pool)
    (h1 : alookup p1.entIndexToCompIndex e.index = some none)
    (hb : ∀ back : Storage,
        p1.components.get? (p1.components.length - 1) = some back →
        ri < p1.components.length - 1 → back.eid.index ≠ e.index)
    (hrm : p1.removeKeyed ri = .ok p') :
    p'.HasComponent e = false := by
  unfold Pool.removeKeyed at hrm
  cases hg : p1.components.get? ri with
  | none => simp only [hg] at hrm; exact Except.noConfusion hrm
  | some gone =>
      simp only [hg] at hrm
      by_cases hlt : ri < p1.components.length - 1
      · rw [if_pos hlt] at hrm
        cases hgl : p1.components.getLast? with
        | none => simp only [hgl] at hrm; exact Except.noConfusion hrm
        | some back =>
            simp only [hgl] at hrm
            have hbne : back.eid.index ≠ e.index :=
              hb back (by rw [← getLast?_eq_get?]; exact hgl) hlt
            have hmap : p'.entIndexToCompIndex =
                if (alookup p1.entIndexToCompIndex back.eid.index).isSome then
                  aset p1.entIndexToCompIndex back.eid.index (some ri)
                else p1.entIndexToCompIndex := by
              cases hrm
              rfl
            unfold Pool.HasComponent
            rw [hmap]
            by_cases hs : (alookup p1.entIndexToCompIndex back.eid.index).isSome = true
            · rw [if_pos hs, alookup_aset_ne _ _ _ _ hbne, h1]
            · rw [if_neg hs, h1]
      · rw [if_neg hlt] at hrm
        have hmap : p'.entIndexToCompIndex = p1.entIndexToCompIndex := by
          cases hrm
          rfl
        unfold Pool.HasComponent
        rw [hmap, h1]

/-- A successful `ComponentPool::Remove(e)` always leaves `HasComponent(e)`
false: the reverse-map entry is set to `INVALID_COMP_INDEX` up front, and the
swap-compaction can only repoint the entry of the moved record's owner, which
is a different index (by the one-record-per-entity hypothesis, and because
the null owner of a soft-removed record has index 0). -/
theorem Remove_has_false (p : Pool) (e : Id) (p' : Pool)
    (he0 : e.index ≠ 0)
    (hmo : PoolMapOwner e p)
    (hcount : ownCount e p ≤ 1)
    (hrm : p.Remove e = .ok p') :
    p'.HasComponent e = false := by
  unfold Pool.Remove at hrm
  by_cases hhc : p.HasComponent e = true
  · rw [if_neg (by simp [hhc])] at hrm
    unfold Pool.HasComponent at hhc
    cases halo : alookup p.entIndexToCompIndex e.index with
    | none => rw [halo] at hhc; simp at hhc
    | some o =>
        cases o with
        | none => rw [halo] at hhc; simp at hhc
        | some ri =>
            simp only [halo] at hrm
            have hmo' : ∀ st, p.components.get? ri = some st →
                st.eid.index = e.index := hmo _ halo ri rfl
            have hback : ∀ back : Storage,
                p.components.get? (p.components.length - 1) = some back →
                ri < p.components.length - 1 →
                back.eid.index ≠ e.index := by
              intro back hbk hlt heq
              by_cases hz : back.eid.index = 0
              · exact he0 (by rw [← heq, hz])
              · have hst : ∃ st, p.components.get? ri = some st := by
                  have hri : ri < p.components.length := by omega
                  exact ⟨_, List.get?_eq_get hri⟩
                obtain ⟨st, hst⟩ := hst
                have h2 := two_le_filter (fun st => decide (st.eid.index = e.index))
                  p.components ri (p.components.length - 1) st back hlt hst hbk
                  (by simp [hmo' st hst]) (by simp [heq])
                unfold ownCount at hcount
                omega
            have h1 : alookup (p.invalidateEnt e).entIndexToCompIndex e.index =
                some none := by
              unfold Pool.invalidateEnt
              exact alookup_aset_self _ _ _
            have hc1 : (p.invalidateEnt e).components = p.components := rfl
            have hback1 : ∀ back : Storage,
                (p.invalidateEnt e).components.get?
                    ((p.invalidateEnt e).components.length - 1) = some back →
                ri < (p.invalidateEnt e).components.length - 1 →
                back.eid.index ≠ e.index := by
              rw [hc1]
              exact hback
            cases hsoft : p.softRemoveMode with
            | true =>
                rw [if_pos hsoft] at hrm
                unfold Pool.softRemove at hrm
                cases hg : (p.invalidateEnt e).components.get? ri with
                | none => simp only [hg] at hrm; exact Except.noConfusion hrm
                | some st =>
                    simp only [hg] at hrm
                    have hmap : p'.entIndexToCompIndex =
                        (p.invalidateEnt e).entIndexToCompIndex := by
                      cases hrm
                      rfl
                    unfold Pool.HasComponent
                    rw [hmap, h1]
            | false =>
                rw [if_neg (by simp [hsoft])] at hrm
                unfold Pool.removeReal at hrm
                cases hk : (p.invalidateEnt e).isKeyed with
                | true =>
                    rw [hk, if_pos rfl] at hrm
                    exact removeKeyed_has_false (p.invalidateEnt e) e ri p' h1 hback1 hrm
                | false =>
                    rw [hk, if_neg (by simp)] at hrm
                    have hbody : (p.invalidateEnt e).removePlain ri = p' := by
                      injection hrm
                    rw [← hbody]
                    exact removePlain_has_false (p.invalidateEnt e) e ri h1 hback1
  · rw [if_pos (by simpa using hhc)] at hrm
    exact Except.noConfusion hrm

/-- Spec invariant 3, restricted to one entity (contrapositive form): a pool
whose bit is not set in the entity's mask holds no record for it. -/
def Clean (e : Id) (m : CompMgr) : Prop :=
  ∀ ci, ci < m.componentPools.length →
    ∀ pool, m.componentPools.get? ci = some pool →
      ∀ msk, m.entCompMasks.get? e.index = some msk →
        ci ∉ msk → pool.HasComponent e = false

instance (e : Id) (m : CompMgr) : Decidable (Clean e m) := by
  unfold Clean
  infer_instance

/-- The loop of `RemoveAll` preserves `Clean`: each iteration either leaves
everything unchanged (bit unset) or removes the entity's record from its own
pool — and, the loop visiting each pool index once, the pools it removes from
still carry the initial state's one-record-per-entity hygiene. -/
theorem removeAll_fold_clean (e : Id) (he0 : e.index ≠ 0) (m0 : CompMgr)
    (hh : ∀ pool ∈ m0.componentPools, PoolMapOwner e pool ∧ ownCount e pool ≤ 1) :
    ∀ (l : List Nat), l.Nodup →
      ∀ (m m' : CompMgr),
        (∀ ci ∈ l, m.componentPools.get? ci = m0.componentPools.get? ci) →
        Clean e m →
        foldE (CompMgr.removeAllStep e) m l = .ok m' →
        Clean e m' := by
  intro l
  induction l with
  | nil =>
      intro _ m m' _ hcl hf
      unfold foldE at hf
      cases hf
      exact hcl
  | cons x xs ih =>
      intro hnd m m' huntouched hcl hf
      have hndx : x ∉ xs := (List.nodup_cons.mp hnd).1
      have hndxs : xs.Nodup := (List.nodup_cons.mp hnd).2
      unfold foldE at hf
      cases hstep : CompMgr.removeAllStep e m x with
      | error err => rw [hstep] at hf; exact Except.noConfusion hf
      | ok m1 =>
          simp only [hstep] at hf
          have hchar : m1 = m ∨
              (∃ msk pool pool', m.entCompMasks.get? e.index = some msk ∧
                m.componentPools.get? x = some pool ∧ pool.Remove e = .ok pool' ∧
                m1 = { m with
                  componentPools := m.componentPools.set x pool',
                  entCompMasks := m.entCompMasks.set e.index (msk.erase x) }) := by
            unfold CompMgr.removeAllStep at hstep
            cases hmsk : m.entCompMasks.get? e.index with
            | none => rw [hmsk] at hstep; exact Except.noConfusion hstep
            | some msk =>
                simp only [hmsk] at hstep
                by_cases hx : x ∈ msk
                · rw [if_pos hx] at hstep
                  cases hpool : m.componentPools.get? x with
                  | none =>
                      simp only [hpool] at hstep
                      exact Except.noConfusion hstep
                  | some pool =>
                      simp only [hpool] at hstep
                      cases hrm : pool.Remove e with
                      | error err =>
                          simp only [hrm] at hstep
                          exact Except.noConfusion hstep
                      | ok pool' =>
                          simp only [hrm] at hstep
                          right
                          refine ⟨msk, pool, pool', ?_, ?_, ?_, ?_⟩ <;>
                            first
                            | exact hmsk
                            | exact hpool
                            | exact hrm
                            | exact (by cases hstep; rfl)
                · rw [if_neg hx] at hstep
                  cases hstep
                  left
                  rfl
          refine ih hndxs m1 m' ?_ ?_ hf
          · rcases hchar with hm1 | ⟨msk, pool, pool', hmsk, hpool, hrm, hm1⟩
            · subst hm1
              exact fun ci hci => huntouched ci (List.mem_cons_of_mem x hci)
            · subst hm1
              intro ci hci
              have hcix : ci ≠ x := fun hc => hndx (hc ▸ hci)
              have : (m.componentPools.set x pool').get? ci =
                  m.componentPools.get? ci :=
                get?_set_ne _ _ _ _ (fun hc => hcix hc.symm)
              rw [this]
              exact huntouched ci (List.mem_cons_of_mem x hci)
          · rcases hchar with hm1 | ⟨msk, pool, pool', hmsk, hpool, hrm, hm1⟩
            · subst hm1
              exact hcl
            · subst hm1
              intro ci hcilt pool'' hpool'' msk'' hmsk'' hnotin
              simp only [List.length_set] at hcilt
              rw [get?_set_self _ _ _ (get?_some_lt hmsk)] at hmsk''
              cases hmsk''
              by_cases hcx : ci = x
              · subst hcx
                rw [get?_set_self _ _ _ (get?_some_lt hpool)] at hpool''
                cases hpool''
                have hmem : pool ∈ m0.componentPools := by
                  have hu := huntouched ci (List.mem_cons_self ci xs)
                  rw [hu] at hpool
                  exact List.get?_mem hpool
                exact Remove_has_false pool e pool' he0
                  (hh pool hmem).1 (hh pool hmem).2 hrm
              · rw [get?_set_ne _ _ _ _ (fun hc => hcx hc.symm)] at hpool''
                have hnotin' : ci ∉ msk := fun hc =>
                  hnotin (Finset.mem_erase.mpr ⟨hcx, hc⟩)
                exact hcl ci hcilt pool'' hpool'' msk hmsk hnotin'

/-- Success of `RemoveAll` is success of its loop, and the closing `Assert`
guarantees the entity's mask ended up blank. -/
theorem RemoveAll_ok (m : CompMgr) (e : Id) (cm' : CompMgr)
    (hra : m.RemoveAll e = .ok cm') :
    foldE (CompMgr.removeAllStep e) m (List.range m.componentPools.length) =
      .ok cm' ∧
    cm'.entCompMasks.get? e.index = some ∅ := by
  unfold CompMgr.RemoveAll at hra
  by_cases hlen : m.entCompMasks.length ≤ e.index
  · rw [if_pos hlen] at hra
    exact Except.noConfusion hra
  · rw [if_neg hlen] at hra
    cases hfold : foldE (CompMgr.removeAllStep e) m
        (List.range m.componentPools.length) with
    | error err => rw [hfold] at hra; exact Except.noConfusion hra
    | ok mf =>
        simp only [hfold] at hra
        cases hmk : mf.entCompMasks.get? e.index with
        | none => simp only [hmk] at hra; exact Except.noConfusion hra
        | some msk =>
            simp only [hmk] at hra
            by_cases hemp : msk = ∅
            · rw [if_pos hemp] at hra
              cases hra
              subst hemp
              exact ⟨rfl, hmk⟩
            · rw [if_neg hemp] at hra
              exact Except.noConfusion hra

/-! ### Claim C7 -/

/-- C7: `Destroy` on an id for which `Valid` is false fails with the
invalid-argument condition (the exception is thrown before any mutation, so
the state is untouched); `Destroy` on a valid id increments that index's
stored generation by exactly 1, clears the alive flag, enqueues the index on
the free list, blanks the entity's mask, and leaves no pool holding a record
for the entity — so the recycled entity carries no leftover components.  The
hypotheses are the spec's data-model invariants 3/4 for the entity being
destroyed (plus `e.index ≠ 0`, which holds for every id `NewEntity` ever
returns). -/
theorem c7_destroy_contract (em : EM) (e : Id)
    (he0 : e.index ≠ 0)
    (hh : ∀ pool ∈ em.compMgr.componentPools,
        PoolMapOwner e pool ∧ ownCount e pool ≤ 1)
    (hcl : Clean e em.compMgr) :
    (em.Valid e = .ok false → em.Destroy e = .error .invalidArg) ∧
    (∀ em' g, em.Destroy e = .ok em' →
        em.entIndexToGen.get? e.index = some g →
        em'.entIndexToGen.get? e.index = some (g + 1) ∧
        em'.indexIsAlive.get? e.index = some false ∧
        em'.freeEntityIndexes = em.freeEntityIndexes ++ [e.index] ∧
        em'.compMgr.entCompMasks.get? e.index = some ∅ ∧
        (∀ ci pool, em'.compMgr.componentPools.get? ci = some pool →
            pool.HasComponent e = false)) := by
  constructor
  · intro hvf
    unfold EM.Destroy
    rw [hvf]
    rfl
  · intro em' g hdes hg
    unfold EM.Destroy at hdes
    cases hv : em.Valid e with
    | error err => rw [hv] at hdes; exact Except.noConfusion hdes
    | ok v =>
        simp only [hv] at hdes
        cases v with
        | false =>
            rw [if_pos (fun h => Bool.noConfusion h)] at hdes
            exact Except.noConfusion hdes
        | true =>
            rw [if_neg (fun hc => hc rfl)] at hdes
            cases halv : (em.indexIsAlive.get? e.index).getD false with
            | false =>
                rw [halv] at hdes
                rw [if_pos (fun h => Bool.noConfusion h)] at hdes
                exact Except.noConfusion hdes
            | true =>
                rw [halv] at hdes
                rw [if_neg (fun hc => hc rfl)] at hdes
                have halive : em.indexIsAlive.get? e.index = some true := by
                  cases hx : em.indexIsAlive.get? e.index with
                  | none => rw [hx] at halv; simp at halv
                  | some b =>
                      rw [hx] at halv
                      simp only [Option.getD_some] at halv
                      rw [halv]
                cases hra : em.compMgr.RemoveAll e with
                | error err => rw [hra] at hdes; exact Except.noConfusion hdes
                | ok cm' =>
                    simp only [hra] at hdes
                    simp only [hg] at hdes
                    obtain ⟨hfold, hmask⟩ := RemoveAll_ok _ _ _ hra
                    have hclean' : Clean e cm' :=
                      removeAll_fold_clean e he0 em.compMgr hh
                        (List.range em.compMgr.componentPools.length)
                        (List.nodup_range _) em.compMgr cm'
                        (fun ci _ => rfl) hcl hfold
                    cases hdes
                    refine ⟨?_, ?_, rfl, hmask, ?_⟩
                    · exact get?_set_self _ _ _ (get?_some_lt hg)
                    · exact get?_set_self _ _ _ (get?_some_lt halive)
                    · intro ci pool hp
                      exact hclean' ci (get?_some_lt hp) pool hp ∅ hmask
                        (Finset.not_mem_empty ci)

/-- A manager holding one live entity `(1, 0)` with one component. -/
def c7em : EM :=
  match EM.init.NewEntity with
  | .ok (em1, e) =>
      match em1.compMgr.SetC 0 e 42 with
      | .ok (cm, _) => { em1 with compMgr := cm }
      | .error _ => em1
  | .error _ => EM.init

/-- The manager after destroying entity `(1, 0)`. -/
def c7em' : EM :=
  match c7em.Destroy ⟨1, 0⟩ with
  | .ok em => em
  | .error _ => c7em

theorem c7_destroy_contract_witness :
    ((⟨1, 0⟩ : Id).index ≠ 0) ∧
    (∀ pool ∈ c7em.compMgr.componentPools,
        PoolMapOwner ⟨1, 0⟩ pool ∧ ownCount ⟨1, 0⟩ pool ≤ 1) ∧
    Clean ⟨1, 0⟩ c7em.compMgr ∧
    c7em.Destroy ⟨1, 0⟩ = .ok c7em' ∧
    c7em.entIndexToGen.get? 1 = some 0 ∧
    (c7em'.entIndexToGen.get? 1 = some (0 + 1) ∧
      c7em'.indexIsAlive.get? 1 = some false ∧
      c7em'.freeEntityIndexes = c7em.freeEntityIndexes ++ [1] ∧
      c7em'.compMgr.entCompMasks.get? 1 = some ∅ ∧
      (∀ ci pool, c7em'.compMgr.componentPools.get? ci = some pool →
          pool.HasComponent ⟨1, 0⟩ = false)) :=
  ⟨by decide, by decide, by decide, by decide, by decide,
   (c7_destroy_contract c7em ⟨1, 0⟩ (by decide) (by decide) (by decide)).2
     c7em' 0 (by decide) (by decide)⟩

/-! ### Claim C9 -/

/-- A manager with no registered types but masks for entity indices 0, 1. -/
def c9m : CompMgr :=
  { compTypeToCompIndex := [], componentPools := [], entCompMasks := [∅, ∅] }

/-- `c9m` after `RegisterComponentType<0>()`. -/
def c9mReg : CompMgr :=
  match c9m.RegisterComponentType 0 with
  | .ok m => m
  | .error _ => c9m

/-- C9 counterexample: before registration Get/Has/Remove all fail with the
unrecognized-component-type condition, but after registration the "previously
failing calls" do NOT all succeed: `Has` succeeds (returns false), while
`Get` and `Remove` on the still-component-less entity keep failing — now with
the not-found `runtime_error`. -/
theorem c9_get_remove_still_fail_after_register :
    c9m.GetC 0 ⟨1, 0⟩ = .error .unrecognized ∧
    c9m.Has 0 ⟨1, 0⟩ = .error .unrecognized ∧
    c9m.RemoveC 0 ⟨1, 0⟩ = .error .unrecognized ∧
    c9mReg.Has 0 ⟨1, 0⟩ = .ok false ∧
    c9mReg.GetC 0 ⟨1, 0⟩ = .error .runtime ∧
    c9mReg.RemoveC 0 ⟨1, 0⟩ = .error .runtime := by
  decide

/-- C9 (amended): for a never-registered type, `Get`, `Has` and `Remove` each
fail with the unrecognized-component-type condition while `Set` auto-registers
the type and succeeds; after a bare registration the unrecognized-type
condition is gone from all three, but only `Has` outright succeeds — `Get`
and `Remove` still fail, with the not-found error, until the entity is
actually given the component. -/
theorem c9_unregistered_amended (m : CompMgr) (t : Nat) (e : Id) (v : Nat)
    (msk : Mask)
    (hunreg : alookup m.compTypeToCompIndex t = none)
    (hmsk : m.entCompMasks.get? e.index = some msk)
    (hbits : ∀ b ∈ msk, b < m.componentPools.length) :
    m.Has t e = .error .unrecognized ∧
    m.GetC t e = .error .unrecognized ∧
    m.RemoveC t e = .error .unrecognized ∧
    (∃ m', m.SetC t e v = .ok (m', v)) ∧
    (∀ m1, m.RegisterComponentType t = .ok m1 →
        m1.Has t e = .ok false ∧
        m1.GetC t e = .error .runtime ∧
        m1.RemoveC t e = .error .runtime) := by
  have hhas : m.Has t e = .error .unrecognized := by
    unfold CompMgr.Has
    rw [hunreg]
  have hreg : m.RegisterComponentType t = .ok { m with
      compTypeToCompIndex := aset m.compTypeToCompIndex t m.componentPools.length,
      componentPools := m.componentPools ++ [Pool.mk0 false] } := by
    unfold CompMgr.RegisterComponentType
    rw [hunreg]
    rfl
  have hnotin : m.componentPools.length ∉ msk := fun hc =>
    lt_irrefl _ (hbits _ hc)
  refine ⟨hhas, ?_, ?_, ?_, ?_⟩
  · unfold CompMgr.GetC
    rw [hhas]
  · unfold CompMgr.RemoveC
    rw [hunreg]
  · unfold CompMgr.SetC
    rw [hunreg, hreg]
    have halo : alookup
        (aset m.compTypeToCompIndex t m.componentPools.length) t =
        some m.componentPools.length := alookup_aset_self _ _ _
    simp only [halo]
    unfold CompMgr.setBody
    simp only [hmsk, get?_append_self]
    exact ⟨_, rfl⟩
  · intro m1 hreg1
    rw [hreg] at hreg1
    have hm1 : m1 = { m with
        compTypeToCompIndex := aset m.compTypeToCompIndex t m.componentPools.length,
        componentPools := m.componentPools ++ [Pool.mk0 false] } := by
      cases hreg1
      rfl
    subst hm1
    have halo : alookup
        (aset m.compTypeToCompIndex t m.componentPools.length) t =
        some m.componentPools.length := alookup_aset_self _ _ _
    have hhas1 : CompMgr.Has { m with
        compTypeToCompIndex := aset m.compTypeToCompIndex t m.componentPools.length,
        componentPools := m.componentPools ++ [Pool.mk0 false] } t e = .ok false := by
      unfold CompMgr.Has
      simp only [halo, hmsk]
      simp [hnotin]
    refine ⟨hhas1, GetC_of_has_false _ t e hhas1, ?_⟩
    unfold CompMgr.RemoveC
    simp only [halo, hmsk]
    rw [if_pos hnotin]

theorem c9_unregistered_amended_witness :
    (alookup c9m.compTypeToCompIndex 0 = none ∧
      c9m.entCompMasks.get? 1 = some ∅ ∧
      (∀ b ∈ (∅ : Mask), b < c9m.componentPools.length)) ∧
    (c9m.Has 0 ⟨1, 0⟩ = .error .unrecognized ∧
      c9m.GetC 0 ⟨1, 0⟩ = .error .unrecognized ∧
      c9m.RemoveC 0 ⟨1, 0⟩ = .error .unrecognized ∧
      (∃ m', c9m.SetC 0 ⟨1, 0⟩ 7 = .ok (m', 7)) ∧
      (∀ m1, c9m.RegisterComponentType 0 = .ok m1 →
          m1.Has 0 ⟨1, 0⟩ = .ok false ∧
          m1.GetC 0 ⟨1, 0⟩ = .error .runtime ∧
          m1.RemoveC 0 ⟨1, 0⟩ = .error .runtime)) :=
  ⟨⟨by decide, by decide, by decide⟩,
   c9_unregistered_amended c9m 0 ⟨1, 0⟩ 7 ∅ (by decide) (by decide) (by decide)⟩

/-! ### Claim C10 -/

/-- C10: when a key type is registered as a PLAIN (non-keyed) component type,
the keyed query operations raise no error: the `dynamic_cast` to
`KeyedComponentPool` yields null, `EntitiesWith<KeyType, …>(key)` returns an
empty collection (its traversal visits nothing, for every key), and
`EntityWith(key)` returns the invalid (null) entity. -/
theorem c10_keyed_query_on_plain_pool (em : EM) (t : Nat) (others : List Nat)
    (key : Nat) (ci : Nat) (pool : Pool)
    (hreg : alookup em.compMgr.compTypeToCompIndex t = some ci)
    (hpool : em.compMgr.componentPools.get? ci = some pool)
    (hplain : pool.isKeyed = false) :
    em.EntitiesWithKey t others key = .ok (em, Coll.empty) ∧
    em.collVisits Coll.empty = [] ∧
    em.EntityWithKey t key = .ok Id.null := by
  refine ⟨?_, rfl, ?_⟩
  · unfold EM.EntitiesWithKey
    simp only [hreg, hpool, hplain]
    rfl
  · unfold EM.EntityWithKey
    simp only [hreg, hpool, hplain]
    rfl

/-- A manager in which type 0 is registered as a PLAIN component type and an
entity holds a value of it. -/
def c10em : EM :=
  match EM.init.NewEntity with
  | .ok (em1, e) =>
      match em1.compMgr.SetC 0 e 9 with
      | .ok (cm, _) => { em1 with compMgr := cm }
      | .error _ => em1
  | .error _ => EM.init

theorem c10_keyed_query_on_plain_pool_witness :
    (alookup c10em.compMgr.compTypeToCompIndex 0 = some 0 ∧
      (∃ pool, c10em.compMgr.componentPools.get? 0 = some pool ∧
        pool.isKeyed = false)) ∧
    (c10em.EntitiesWithKey 0 [] 9 = .ok (c10em, Coll.empty) ∧
      c10em.collVisits Coll.empty = [] ∧
      c10em.EntityWithKey 0 9 = .ok Id.null) := by
  refine ⟨⟨by decide, ?_⟩, ?_⟩
  · exact ⟨(Pool.mk0 false).SetP ⟨1, 0⟩ 9, by decide, by decide⟩
  · exact c10_keyed_query_on_plain_pool c10em 0 [] 9 0
      ((Pool.mk0 false).SetP ⟨1, 0⟩ 9) (by decide) (by decide) (by decide)

/-! ### Claim C3: operations on a locked pool during a traversal -/

/-- The operations the public API can drive the traversal's driving pool
through while its iterate lock is held: `Set` (plain or keyed — both append
at the end) and `Remove` (which soft-removes under the lock). -/
inductive DuringOp where
  | setPlain (e : Id) (v : Nat)
  | setKeyed (e : Id) (v : Nat)
  | removeComp (e : Id)

/-- Apply one operation; a throwing `Remove` (entity without a record) leaves
the pool unchanged — the only throw on a well-formed locked pool happens
before any mutation. -/
def applyDuring (p : Pool) : DuringOp → Pool
  | .setPlain e v => p.SetP e v
  | .setKeyed e v => p.SetKeyed e v
  | .removeComp e =>
      match p.Remove e with
      | .ok p' => p'
      | .error _ => p

/-- The pool after a sequence of during-traversal operations. -/
def applyOps (p : Pool) (ops : List DuringOp) : Pool :=
  ops.foldl applyDuring p

theorem alookup_append_of_some {β : Type} :
    ∀ (l l₂ : List (Nat × β)) (key : Nat) (x : β),
      alookup l key = some x → alookup (l ++ l₂) key = some x
  | [], _, _, _, h => by cases h
  | (k, w) :: rest, l₂, key, x, h => by
      by_cases hk : k = key
      · simpa [alookup, hk] using by simpa [alookup, hk] using h
      · simpa [alookup, hk] using
          alookup_append_of_some rest l₂ key x (by simpa [alookup, hk] using h)

/-- Success of `Remove` on a pool in soft-remove mode: the reverse-map entry
is invalidated, the record's owner becomes the null identity in place, and
the slot index is enqueued — nothing else changes. -/
theorem Remove_soft_ok (p : Pool) (e : Id) (p' : Pool)
    (hs : p.softRemoveMode = true) (hrm : p.Remove e = .ok p') :
    ∃ ri st0, alookup p.entIndexToCompIndex e.index = some (some ri) ∧
      p.components.get? ri = some st0 ∧
      p' = { p with
        entIndexToCompIndex := aset p.entIndexToCompIndex e.index none,
        components := p.components.set ri { st0 with eid := Id.null },
        softRemoveCompIndexes := p.softRemoveCompIndexes ++ [ri] } := by
  unfold Pool.Remove at hrm
  by_cases hhc : p.HasComponent e = true
  · rw [if_neg (by simp [hhc])] at hrm
    cases halo : alookup p.entIndexToCompIndex e.index with
    | none =>
        unfold Pool.HasComponent at hhc
        rw [halo] at hhc
        simp at hhc
    | some o =>
        cases o with
        | none =>
            unfold Pool.HasComponent at hhc
            rw [halo] at hhc
            simp at hhc
        | some ri =>
            simp only [halo] at hrm
            rw [if_pos hs] at hrm
            unfold Pool.softRemove at hrm
            cases hg : (p.invalidateEnt e).components.get? ri with
            | none => simp only [hg] at hrm; exact Except.noConfusion hrm
            | some st0 =>
                simp only [hg] at hrm
                refine ⟨ri, st0, ?_, ?_, ?_⟩ <;>
                  first
                  | exact halo
                  | exact hg
                  | exact (by cases hrm; rfl)
  · rw [if_pos (by simpa using hhc)] at hrm
    exact Except.noConfusion hrm

/-- One during-traversal operation on a locked pool keeps the lock, never
shrinks the record array, turns construction-time records at their original
positions at most into null-owned ones, and only ever appends to keyed
buckets. -/
theorem during_step (p : Pool) (op : DuringOp) (hs : p.softRemoveMode = true) :
    (applyDuring p op).softRemoveMode = true ∧
    p.components.length ≤ (applyDuring p op).components.length ∧
    (∀ pos st, pos < p.components.length →
        (applyDuring p op).components.get? pos = some st →
        st.eid = Id.null ∨
        ∃ st0, p.components.get? pos = some st0 ∧ st.eid = st0.eid) ∧
    (∀ key l, alookup p.compKeyToCompIndex key = some l →
        ∃ tail, alookup (applyDuring p op).compKeyToCompIndex key =
          some (l ++ tail)) := by
  cases op with
  | setPlain e v =>
      refine ⟨hs, by simp [applyDuring, Pool.SetP], ?_, ?_⟩
      · intro pos st hpos hget
        right
        rw [applyDuring] at hget
        unfold Pool.SetP at hget
        rw [get?_append_lt _ _ _ hpos] at hget
        exact ⟨st, hget, rfl⟩
      · intro key l hl
        exact ⟨[], by simpa [applyDuring, Pool.SetP] using hl⟩
  | setKeyed e v =>
      refine ⟨hs, by simp [applyDuring, Pool.SetKeyed], ?_, ?_⟩
      · intro pos st hpos hget
        right
        rw [applyDuring] at hget
        unfold Pool.SetKeyed at hget
        simp only at hget
        rw [get?_append_lt _ _ _ hpos] at hget
        exact ⟨st, hget, rfl⟩
      · intro key l hl
        rw [applyDuring]
        unfold Pool.SetKeyed
        simp only
        cases hv : alookup p.compKeyToCompIndex v with
        | some l0 =>
            by_cases hk : v = key
            · subst hk
              rw [hv] at hl
              cases hl
              exact ⟨[p.components.length], by
                rw [alookup_aupdate_self, hv]
                rfl⟩
            · exact ⟨[], by
                rw [alookup_aupdate_ne _ _ _ _ hk, hl]
                simp⟩
        | none =>
            have hk : key ≠ v := fun hc => by rw [hc, hv] at hl; cases hl
            exact ⟨[], by
              rw [alookup_append_of_some _ _ _ _ hl]
              simp⟩
  | removeComp e =>
      rw [applyDuring]
      cases hrm : p.Remove e with
      | error err =>
          exact ⟨hs, le_rfl, fun pos st _ hget => .inr ⟨st, hget, rfl⟩,
            fun key l hl => ⟨[], by simpa using hl⟩⟩
      | ok p' =>
          obtain ⟨ri, st0, halo, hg, hp'⟩ := Remove_soft_ok p e p' hs hrm
          subst hp'
          refine ⟨hs, by simp, ?_, ?_⟩
          · intro pos st hpos hget
            by_cases hpr : ri = pos
            · subst hpr
              left
              rw [get?_set_self _ _ _ (get?_some_lt hg)] at hget
              cases hget
              rfl
            · right
              rw [get?_set_ne _ _ _ _ hpr] at hget
              exact ⟨st, hget, rfl⟩
          · intro key l hl
            exact ⟨[], by simpa using hl⟩

/-- Sequences of during-traversal operations preserve all four properties. -/
theorem applyOps_snapshot (p0 : Pool) (ops : List DuringOp)
    (hs : p0.softRemoveMode = true) :
    (applyOps p0 ops).softRemoveMode = true ∧
    p0.components.length ≤ (applyOps p0 ops).components.length ∧
    (∀ pos st, pos < p0.components.length →
        (applyOps p0 ops).components.get? pos = some st →
        st.eid = Id.null ∨
        ∃ st0, p0.components.get? pos = some st0 ∧ st.eid = st0.eid) ∧
    (∀ key l, alookup p0.compKeyToCompIndex key = some l →
        ∃ tail, alookup (applyOps p0 ops).compKeyToCompIndex key =
          some (l ++ tail)) := by
  induction ops generalizing p0 with
  | nil => exact ⟨hs, le_rfl, fun pos st _ hget => .inr ⟨st, hget, rfl⟩,
      fun key l hl => ⟨[], by simpa using hl⟩⟩
  | cons op ops ih =>
      obtain ⟨hs1, hlen1, hget1, hbk1⟩ := during_step p0 op hs
      obtain ⟨hs2, hlen2, hget2, hbk2⟩ := ih (applyDuring p0 op) hs1
      have happ : applyOps p0 (op :: ops) = applyOps (applyDuring p0 op) ops := rfl
      rw [happ]
      refine ⟨hs2, le_trans hlen1 hlen2, ?_, ?_⟩
      · intro pos st hpos hget
        rcases hget2 pos st (lt_of_lt_of_le hpos hlen1) hget with hnull | ⟨st1, hget1', heq⟩
        · exact .inl hnull
        · rcases hget1 pos st1 hpos hget1' with hnull1 | ⟨st0, hget0, heq0⟩
          · exact .inl (heq.trans hnull1)
          · exact .inr ⟨st0, hget0, heq.trans heq0⟩
      · intro key l hl
        obtain ⟨t1, h1⟩ := hbk1 key l hl
        obtain ⟨t2, h2⟩ := hbk2 key _ h1
        exact ⟨t1 ++ t2, by rw [h2, List.append_assoc]⟩

/-- The prefix-before-the-sentinel of a bucket list. -/
theorem takeWhile_sentinel :
    ∀ (pre rest : List Nat), INVALID_COMP_INDEX ∉ pre →
      (pre ++ INVALID_COMP_INDEX :: rest).takeWhile
        (fun j => decide (j ≠ INVALID_COMP_INDEX)) = pre
  | [], rest, _ => by simp [List.takeWhile]
  | x :: pre, rest, hmem => by
      have hx : x ≠ INVALID_COMP_INDEX := fun hc => hmem (hc ▸ List.mem_cons_self x pre)
      have hmem' : INVALID_COMP_INDEX ∉ pre := fun hc => hmem (List.mem_cons_of_mem x hc)
      simpa [List.takeWhile, hx] using takeWhile_sentinel pre rest hmem'

/-- C3: any entity created after a traversal's collection is constructed is
never visited by that traversal.  For the dense (template/mask) collection
the end position is the size_t snapshot `lastCompIndex + 1` taken at
construction; for the keyed collection the bucket carries the traversal's own
sentinel node, appends land after it, and iteration stops at it.  In both
forms, over ANY interleaving of the operations a locked pool admits (Set
appends at the end; Remove soft-removes in place), every visited id is either
an owner recorded at construction time or the null id — so an id that was not
among the construction-time owners (as the id of any later-created entity is:
its index is fresh, or its generation freshly incremented) and is not null is
never produced by the traversal, whatever the mask table says. -/
theorem c3_snapshot_excludes_created (p0 : Pool) (ops : List DuringOp)
    (hs : p0.softRemoveMode = true)
    (hsize : p0.Size < 2 ^ 64) :
    (∀ (masks : List Mask) (cmask : Mask) (id : Id),
        id ∉ p0.components.map (·.eid) → id ≠ Id.null →
        id ∉ poolVisits masks cmask (applyOps p0 ops)
          (((p0.Size + (2 ^ 64 - 1)) % 2 ^ 64 + 1) % 2 ^ 64)) ∧
    (∀ (masks : List Mask) (cmask : Mask) (id : Id) (key : Nat)
        (pre suf : List Nat),
        alookup p0.compKeyToCompIndex key =
          some (pre ++ INVALID_COMP_INDEX :: suf) →
        INVALID_COMP_INDEX ∉ pre →
        (∀ j ∈ pre, j < p0.components.length) →
        id ∉ p0.components.map (·.eid) → id ≠ Id.null →
        ∀ l1, alookup (applyOps p0 ops).compKeyToCompIndex key = some l1 →
          id ∉ keyedVisits masks cmask (applyOps p0 ops)
            (l1.takeWhile (fun j => decide (j ≠ INVALID_COMP_INDEX)))) := by
  obtain ⟨hs', hlen, hget, hbk⟩ := applyOps_snapshot p0 ops hs
  have hend : ((p0.Size + (2 ^ 64 - 1)) % 2 ^ 64 + 1) % 2 ^ 64 = p0.Size :=
    lastWrap _ hsize
  have hold : ∀ (pos : Nat) (id : Id), pos < p0.components.length →
      (applyOps p0 ops).entityAt pos = id → id ≠ Id.null →
      id ∈ p0.components.map (·.eid) := by
    intro pos id hpos hat hnn
    have hpos' : pos < (applyOps p0 ops).components.length :=
      lt_of_lt_of_le hpos hlen
    obtain ⟨st, hst⟩ : ∃ st, (applyOps p0 ops).components.get? pos = some st :=
      ⟨_, List.get?_eq_get hpos'⟩
    unfold Pool.entityAt at hat
    rw [hst] at hat
    simp only [Option.map_some', Option.getD_some] at hat
    rcases hget pos st hpos hst with hnull | ⟨st0, hst0, heq⟩
    · exact absurd (hat ▸ hnull) hnn
    · have hmem : st0 ∈ p0.components := List.get?_mem hst0
      rw [List.mem_map]
      exact ⟨st0, hmem, by rw [← heq, hat]⟩
  constructor
  · intro masks cmask id hnot hnn hmem
    rw [hend] at hmem
    unfold poolVisits at hmem
    rw [iterVisits_eq_filter, List.mem_map] at hmem
    obtain ⟨pos, hposmem, hat⟩ := hmem
    rw [List.mem_filter] at hposmem
    have hposlt : pos < p0.Size := List.mem_range.mp hposmem.1
    exact hnot (hold pos id hposlt hat hnn)
  · intro masks cmask id key pre suf hbk0 hpre hprelt hnot hnn l1 hl1
    obtain ⟨tail, htail⟩ := hbk key _ hbk0
    rw [hl1] at htail
    injection htail with htail
    subst htail
    have hshape : (pre ++ INVALID_COMP_INDEX :: suf) ++ tail =
        pre ++ INVALID_COMP_INDEX :: (suf ++ tail) := by simp
    intro hmem
    rw [hshape, takeWhile_sentinel pre _ hpre] at hmem
    unfold keyedVisits at hmem
    rw [iterVisits_eq_filter, List.mem_map] at hmem
    obtain ⟨j, hjmem, hat⟩ := hmem
    rw [List.mem_filter] at hjmem
    have hjpre : j ∈ pre := hjmem.1
    have hjni : j ≠ INVALID_COMP_INDEX := fun hc => hpre (hc ▸ hjpre)
    unfold keyedDeref at hat
    rw [if_neg hjni] at hat
    exact hnot (hold j id (hprelt j hjpre) hat hnn)

/-- A locked keyed pool as a keyed traversal sees it at construction: two
records keyed 5, the traversal's sentinel at the end of the bucket, and
soft-remove mode on. -/
def c3p0 : Pool :=
  { ((Pool.mk0 true).SetKeyed ⟨1, 0⟩ 5 |>.SetKeyed ⟨2, 0⟩ 5) with
    softRemoveMode := true,
    compKeyToCompIndex := [(5, [0, 1, INVALID_COMP_INDEX])] }

/-- During the traversal: a new entity (3,0) receives the key-5 component,
and entity (1,0)'s component is removed. -/
def c3ops : List DuringOp :=
  [DuringOp.setKeyed ⟨3, 0⟩ 5, DuringOp.removeComp ⟨1, 0⟩]

theorem c3_snapshot_excludes_created_witness :
    (c3p0.softRemoveMode = true ∧ c3p0.Size < 2 ^ 64) ∧
    ((⟨3, 0⟩ : Id) ∉ c3p0.components.map (·.eid) ∧ (⟨3, 0⟩ : Id) ≠ Id.null ∧
      (⟨3, 0⟩ : Id) ∉ poolVisits [∅, {0}, {0}, {0}] {0} (applyOps c3p0 c3ops)
        (((c3p0.Size + (2 ^ 64 - 1)) % 2 ^ 64 + 1) % 2 ^ 64)) ∧
    (alookup c3p0.compKeyToCompIndex 5 =
        some ([0, 1] ++ INVALID_COMP_INDEX :: []) ∧
      ∀ l1, alookup (applyOps c3p0 c3ops).compKeyToCompIndex 5 = some l1 →
        (⟨3, 0⟩ : Id) ∉ keyedVisits [∅, {0}, {0}, {0}] {0} (applyOps c3p0 c3ops)
          (l1.takeWhile (fun j => decide (j ≠ INVALID_COMP_INDEX)))) :=
  ⟨⟨by decide, by decide⟩,
   ⟨by decide, by decide,
    (c3_snapshot_excludes_created c3p0 c3ops (by decide) (by decide)).1
      [∅, {0}, {0}, {0}] {0} ⟨3, 0⟩ (by decide) (by decide)⟩,
   ⟨by decide,
    (c3_snapshot_excludes_created c3p0 c3ops (by decide) (by decide)).2
      [∅, {0}, {0}, {0}] {0} ⟨3, 0⟩ 5 [0, 1] [] (by decide) (by decide)
      (by decide) (by decide) (by decide)⟩⟩

/-! ### Claim C1: multi-component queries visit exactly the mask-satisfying
entities -/

/-- Two ids agreeing on index and generation are equal. -/
theorem Id.eq_of_parts : ∀ {x y : Id}, x.index = y.index → x.gen = y.gen →
    x = y
  | ⟨_, _⟩, ⟨_, _⟩, rfl, rfl => rfl

/-- The driving-pool search step only ever picks indexes that carry a
requested bit and name an existing pool. -/
theorem findDrivingStep_inv (cmask : Mask) (pools : List Pool)
    (st : Nat × Option Nat) (i : Nat) (hi : i < pools.length)
    (hst : ∀ j, st.2 = some j → j ∈ cmask ∧ j < pools.length) :
    ∀ j, (findDrivingStep cmask pools st i).2 = some j →
      j ∈ cmask ∧ j < pools.length := by
  intro j hj
  unfold findDrivingStep at hj
  by_cases hcm : i ∈ cmask
  · rw [if_pos hcm] at hj
    by_cases hpick : st.2 = none ∨ ((pools.get? i).map Pool.Size).getD 0 < st.1
    · rw [if_pos hpick] at hj
      obtain rfl : i = j := Option.some.inj hj
      exact ⟨hcm, hi⟩
    · rw [if_neg hpick] at hj
      exact hst j hj
  · rw [if_neg hcm] at hj
    exact hst j hj

theorem findDriving_fold_inv (cmask : Mask) (pools : List Pool) :
    ∀ (l : List Nat) (st : Nat × Option Nat),
      (∀ i ∈ l, i < pools.length) →
      (∀ j, st.2 = some j → j ∈ cmask ∧ j < pools.length) →
      ∀ j, (l.foldl (findDrivingStep cmask pools) st).2 = some j →
        j ∈ cmask ∧ j < pools.length
  | [], _, _, hst, j, hj => hst j hj
  | i :: l, st, hl, hst, j, hj =>
      findDriving_fold_inv cmask pools l (findDrivingStep cmask pools st i)
        (fun x hx => hl x (List.mem_cons_of_mem _ hx))
        (findDrivingStep_inv cmask pools st i (hl i (List.mem_cons_self i l))
          hst)
        j hj

/-- A successful driving-pool search yields an index with a requested bit
naming an existing pool. -/
theorem findDriving_mem (cmask : Mask) (pools : List Pool) (mi : Nat)
    (h : findDriving cmask pools = some mi) :
    mi ∈ cmask ∧ mi < pools.length := by
  unfold findDriving at h
  exact findDriving_fold_inv cmask pools (List.range pools.length)
    (2 ^ 64 - 1, none)
    (fun i hi => List.mem_range.mp hi)
    (fun j hj => Option.noConfusion hj)
    mi h

/-- Anatomy of a successful `EntitiesWith(mask)`: a driving pool was found,
its iterate lock engaged (it was not already locked), and the returned
collection snapshots `lastCompIndex = Size() - 1` in size_t arithmetic. -/
theorem EntitiesWithMask_ok (em em1 : EM) (cmask : Mask) (coll : Coll)
    (hrun : em.EntitiesWithMask cmask = .ok (em1, coll)) :
    ∃ mi pool, findDriving cmask em.compMgr.componentPools = some mi ∧
      em.compMgr.componentPools.get? mi = some pool ∧
      pool.softRemoveMode = false ∧
      em1 = em.setPool mi { pool with softRemoveMode := true } ∧
      coll = Coll.ofPool cmask mi ((pool.Size + (2 ^ 64 - 1)) % 2 ^ 64) := by
  unfold EM.EntitiesWithMask at hrun
  cases hmi : findDriving cmask em.compMgr.componentPools with
  | none =>
      simp only [hmi] at hrun
      exact Except.noConfusion hrun
  | some mi =>
      simp only [hmi] at hrun
      cases hp : em.compMgr.componentPools.get? mi with
      | none =>
          simp only [hp] at hrun
          exact Except.noConfusion hrun
      | some pool =>
          simp only [hp] at hrun
          unfold Pool.toggleSoftRemove at hrun
          rw [if_pos rfl] at hrun
          cases hsm : pool.softRemoveMode with
          | true =>
              rw [hsm, if_pos rfl] at hrun
              exact Except.noConfusion hrun
          | false =>
              rw [hsm, if_neg (fun hc => Bool.noConfusion hc)] at hrun
              have h2 : (Except.ok
                  (em.setPool mi { pool with softRemoveMode := true },
                    Coll.ofPool cmask mi
                      ((pool.Size + (2 ^ 64 - 1)) % 2 ^ 64)) :
                  Except Err (EM × Coll)) = .ok (em1, coll) := hrun
              injection h2 with h3
              injection h3 with h4 h5
              refine ⟨mi, pool, ?_, ?_, ?_, ?_, ?_⟩ <;>
                first
                | rfl
                | exact hp
                | exact hsm
                | exact h4.symm
                | exact h5.symm

/-- C1: for every manager state and pair of registered component types `a`
(bit `ia`) and `b` (bit `ib`), a successful `EntitiesWith<A,B>()` traversal
visits an entity iff it is live and its component mask has both bits set —
including states where the driving pool's first records belong to entities
lacking the other type, since the iterator's construction skips forward from
its first position (`iterVisits` realizes the constructor's initial
`skipUnsat`).  The hypotheses are the spec's data-model invariants on the
requested pools: every record's owner is a live entity, and every live
entity whose mask has both bits owns a record in each requested pool. -/
theorem c1_entities_with_pair (em em1 : EM) (coll : Coll) (a b ia ib : Nat)
    (ha : alookup em.compMgr.compTypeToCompIndex a = some ia)
    (hb : alookup em.compMgr.compTypeToCompIndex b = some ib)
    (hrun : em.EntitiesWithT [a, b] = .ok (em1, coll))
    (hsz : ∀ p ∈ em.compMgr.componentPools, p.Size < 2 ^ 64)
    (hlive : ∀ c ∈ ({ia, ib} : Finset Nat), ∀ pc,
        em.compMgr.componentPools.get? c = some pc →
        ∀ st ∈ pc.components, em.LiveEnt st.eid)
    (hrec : ∀ c ∈ ({ia, ib} : Finset Nat), ∀ pc,
        em.compMgr.componentPools.get? c = some pc →
        ∀ i ∈ List.range em.compMgr.entCompMasks.length, ∀ m : Mask,
          em.compMgr.entCompMasks.get? i = some m → ia ∈ m → ib ∈ m →
          ∃ st ∈ pc.components, st.eid.index = i) :
    ∀ id : Id, id ∈ em1.collVisits coll ↔
      em.LiveEnt id ∧ ∃ m : Mask,
        em.compMgr.entCompMasks.get? id.index = some m ∧ ia ∈ m ∧ ib ∈ m := by
  have hcm : em.compMgr.CreateMask [a, b] = .ok (insert ib (insert ia ∅)) := by
    unfold CompMgr.CreateMask foldE CompMgr.setMask
    simp only [ha]
    unfold foldE
    simp only [hb]
    rfl
  have hiacm : ia ∈ (insert ib (insert ia ∅) : Finset Nat) :=
    Finset.mem_insert.mpr (Or.inr (Finset.mem_insert_self ia ∅))
  have hibcm : ib ∈ (insert ib (insert ia ∅) : Finset Nat) :=
    Finset.mem_insert_self ib _
  have hcm_cases : ∀ c ∈ (insert ib (insert ia ∅) : Finset Nat),
      c = ia ∨ c = ib := by
    intro c hc
    rcases Finset.mem_insert.mp hc with h | h
    · exact Or.inr h
    · rcases Finset.mem_insert.mp h with h2 | h2
      · exact Or.inl h2
      · exact absurd h2 (Finset.not_mem_empty c)
  unfold EM.EntitiesWithT at hrun
  simp only [hcm] at hrun
  obtain ⟨mi, pool, hmi, hp, hsm, hem1, hcoll⟩ :=
    EntitiesWithMask_ok em em1 _ coll hrun
  obtain ⟨hmic, hmilt⟩ := findDriving_mem _ _ mi hmi
  have hmi2 : mi ∈ ({ia, ib} : Finset Nat) := by
    rcases hcm_cases mi hmic with h | h
    · exact Finset.mem_insert.mpr (Or.inl h)
    · exact Finset.mem_insert.mpr (Or.inr (Finset.mem_singleton.mpr h))
  subst hem1
  subst hcoll
  have hget : (em.setPool mi
      { pool with softRemoveMode := true }).compMgr.componentPools.get? mi =
      some { pool with softRemoveMode := true } :=
    get?_set_self _ mi _ hmilt
  have hmask2 : (em.setPool mi
      { pool with softRemoveMode := true }).compMgr.entCompMasks =
      em.compMgr.entCompMasks := rfl
  have hsizelt : pool.Size < 2 ^ 64 := hsz pool (List.get?_mem hp)
  intro id
  constructor
  · intro hv
    unfold EM.collVisits at hv
    simp only [hget] at hv
    rw [hmask2, lastWrap pool.Size hsizelt] at hv
    unfold poolVisits at hv
    rw [iterVisits_eq_filter, List.mem_map] at hv
    obtain ⟨pos, hpos, hderef⟩ := hv
    rw [List.mem_filter] at hpos
    obtain ⟨hposr, hsat⟩ := hpos
    rw [List.mem_range] at hposr
    obtain ⟨st, hst⟩ : ∃ st, pool.components.get? pos = some st :=
      ⟨_, List.get?_eq_get hposr⟩
    have hderef' : st.eid = id := by
      unfold Pool.entityAt at hderef
      rw [show ({ pool with softRemoveMode := true } : Pool).components.get?
        pos = some st from hst] at hderef
      simpa using hderef
    have hstmem : st ∈ pool.components := List.get?_mem hst
    have hlive' : em.LiveEnt st.eid := hlive mi hmi2 pool hp st hstmem
    have hsat' : satisfiesMask em.compMgr.entCompMasks
        (insert ib (insert ia ∅))
        (Pool.entityAt { pool with softRemoveMode := true } pos) = true := hsat
    rw [hderef] at hsat'
    unfold satisfiesMask at hsat'
    have hsub : (insert ib (insert ia ∅) : Finset Nat) ⊆
        (em.compMgr.entCompMasks.get? id.index).getD ∅ :=
      Finset.inter_eq_right.mp (of_decide_eq_true hsat')
    cases hmq : em.compMgr.entCompMasks.get? id.index with
    | none =>
        exfalso
        rw [hmq] at hsub
        exact Finset.not_mem_empty ia (hsub hiacm)
    | some m =>
        rw [hmq] at hsub
        exact ⟨hderef' ▸ hlive', m, rfl, hsub hiacm, hsub hibcm⟩
  · intro hrhs
    obtain ⟨hlv, m, hm, hiam, hibm⟩ := hrhs
    have hi_range : id.index ∈ List.range em.compMgr.entCompMasks.length :=
      List.mem_range.mpr (get?_some_lt hm)
    obtain ⟨st, hstmem, hsteq⟩ :=
      hrec mi hmi2 pool hp id.index hi_range m hm hiam hibm
    have hstlive : em.LiveEnt st.eid := hlive mi hmi2 pool hp st hstmem
    have heq : st.eid = id := by
      apply Id.eq_of_parts hsteq
      have h1 := hstlive.2
      have h2 := hlv.2
      rw [hsteq] at h1
      rw [h1] at h2
      exact Option.some.inj h2
    obtain ⟨pos, hpos⟩ := List.get?_of_mem hstmem
    have hposlt : pos < pool.Size := get?_some_lt hpos
    have hat : Pool.entityAt { pool with softRemoveMode := true } pos = id := by
      unfold Pool.entityAt
      rw [show ({ pool with softRemoveMode := true } : Pool).components.get?
        pos = some st from hpos]
      simpa using heq
    unfold EM.collVisits
    simp only [hget]
    rw [hmask2, lastWrap pool.Size hsizelt]
    unfold poolVisits
    rw [iterVisits_eq_filter, List.mem_map]
    refine ⟨pos, ?_, hat⟩
    rw [List.mem_filter]
    refine ⟨List.mem_range.mpr hposlt, ?_⟩
    show satisfiesMask em.compMgr.entCompMasks (insert ib (insert ia ∅))
      (Pool.entityAt { pool with softRemoveMode := true } pos) = true
    rw [hat]
    unfold satisfiesMask
    rw [hm]
    apply decide_eq_true
    apply Finset.inter_eq_right.mpr
    intro c hc
    rcases hcm_cases c hc with rfl | rfl
    · exact hiam
    · exact hibm

/-- Pool of type 10 (bit 0): records owned by entities 1, 2, 3 — the first
two lack bit 1, so a `<10, 11>` traversal driven by this pool must skip
forward from its very first position (the regression the spec calls out). -/
def c1pool0 : Pool :=
  { components := [⟨⟨1, 0⟩, 100, false⟩, ⟨⟨2, 0⟩, 101, false⟩,
      ⟨⟨3, 0⟩, 102, false⟩],
    entIndexToCompIndex := [(1, some 0), (2, some 1), (3, some 2)],
    softRemoveMode := false, softRemoveCompIndexes := [], isKeyed := false,
    compKeyToCompIndex := [] }

/-- Pool of type 11 (bit 1): records owned by entities 4, 5, 3. -/
def c1pool1 : Pool :=
  { components := [⟨⟨4, 0⟩, 200, false⟩, ⟨⟨5, 0⟩, 201, false⟩,
      ⟨⟨3, 0⟩, 202, false⟩],
    entIndexToCompIndex := [(4, some 0), (5, some 1), (3, some 2)],
    softRemoveMode := false, softRemoveCompIndexes := [], isKeyed := false,
    compKeyToCompIndex := [] }

/-- Manager with the two pools above: entities 1, 2 hold only type 10,
entities 4, 5 hold only type 11, and entity 3 holds both. -/
def c1em : EM :=
  { compMgr :=
      { compTypeToCompIndex := [(10, 0), (11, 1)],
        componentPools := [c1pool0, c1pool1],
        entCompMasks := [∅, {0}, {0}, {0, 1}, {1}, {1}] },
    entIndexToGen := [0, 0, 0, 0, 0, 0],
    indexIsAlive := [false, true, true, true, true, true],
    freeEntityIndexes := [] }

def c1run : Except Err (EM × Coll) := c1em.EntitiesWithT [10, 11]

def c1em1 : EM :=
  match c1run with
  | .ok x => x.1
  | .error _ => c1em

def c1coll : Coll :=
  match c1run with
  | .ok x => x.2
  | .error _ => Coll.empty

theorem c1_entities_with_pair_witness :
    (alookup c1em.compMgr.compTypeToCompIndex 10 = some 0 ∧
      alookup c1em.compMgr.compTypeToCompIndex 11 = some 1 ∧
      c1em.EntitiesWithT [10, 11] = .ok (c1em1, c1coll) ∧
      c1em1.collVisits c1coll = [⟨3, 0⟩]) ∧
    ((⟨3, 0⟩ : Id) ∈ c1em1.collVisits c1coll ↔
      c1em.LiveEnt ⟨3, 0⟩ ∧ ∃ m : Mask,
        c1em.compMgr.entCompMasks.get? (⟨3, 0⟩ : Id).index = some m ∧
        0 ∈ m ∧ 1 ∈ m) ∧
    ((⟨1, 0⟩ : Id) ∈ c1em1.collVisits c1coll ↔
      c1em.LiveEnt ⟨1, 0⟩ ∧ ∃ m : Mask,
        c1em.compMgr.entCompMasks.get? (⟨1, 0⟩ : Id).index = some m ∧
        0 ∈ m ∧ 1 ∈ m) :=
  ⟨⟨by decide, by decide, by decide, by decide⟩,
   c1_entities_with_pair c1em c1em1 c1coll 10 11 0 1 (by decide) (by decide)
     (by decide) (by decide) (by decide) (by decide) ⟨3, 0⟩,
   c1_entities_with_pair c1em c1em1 c1coll 10 11 0 1 (by decide) (by decide)
     (by decide) (by decide) (by decide) (by decide) ⟨1, 0⟩⟩

/-! ### Claim C8: keyed buckets — sharing, partial removal, and eager bucket
erasure -/

/-- `aupdate` edits a value in place and never changes the key set. -/
theorem aupdate_keys {β : Type} :
    ∀ (l : List (Nat × β)) (k : Nat) (f : β → β),
      (aupdate l k f).map Prod.fst = l.map Prod.fst
  | [], _, _ => rfl
  | (k', w) :: rest, k, f => by
      by_cases h : k' = k
      · simp [aupdate, h]
      · simp [aupdate, h, aupdate_keys rest k f]

/-- C8: in a keyed pool where entities `e1` and `e2` share key `k`'s bucket
and `e3` alone holds key `k2`: removing `e1`'s component leaves `e2`'s
component in place (`HasComponent`/`Get` still succeed) and key `k`'s bucket
still present; removing `e3`'s component — the last record for `k2` — erases
`k2`'s bucket from the key map the instant its list empties, so a subsequent
`EntitiesWith<KeyType>(k2)` lookup finds no bucket and returns the empty
collection, and `EntityWith(k2)` logic (`KeyedEntity`) yields the null
entity.  The hypotheses spell out the keyed data model: the reverse map
points at each entity's record, the shared bucket holds both positions, and
`e2`'s index owns exactly one record. -/
theorem c8_keyed_buckets (p : Pool) (e1 e2 e3 : Id) (i1 i2 i3 : Nat)
    (st1 st2 st3 : Storage) (k k2 : Nat) (l : List Nat)
    (hk : p.isKeyed = true)
    (hsm : p.softRemoveMode = false)
    (hnd : (p.compKeyToCompIndex.map Prod.fst).Nodup)
    (hm1 : alookup p.entIndexToCompIndex e1.index = some (some i1))
    (hm2 : alookup p.entIndexToCompIndex e2.index = some (some i2))
    (hm3 : alookup p.entIndexToCompIndex e3.index = some (some i3))
    (hg1 : p.components.get? i1 = some st1)
    (hg2 : p.components.get? i2 = some st2)
    (hg3 : p.components.get? i3 = some st3)
    (hst1k : st1.keyedLink = true) (hst1v : st1.value = k)
    (hst2e : st2.eid = e2)
    (hst3k : st3.keyedLink = true) (hst3v : st3.value = k2)
    (hne12 : e1.index ≠ e2.index)
    (hij : i1 ≠ i2)
    (hbk : alookup p.compKeyToCompIndex k = some l)
    (hi2l : i2 ∈ l)
    (hbk2 : alookup p.compKeyToCompIndex k2 = some [i3])
    (hown2 : ∀ j ∈ List.range p.components.length, ∀ st,
        p.components.get? j = some st → st.eid.index = e2.index → j = i2) :
    (∃ p1, p.Remove e1 = .ok p1 ∧
      p1.HasComponent e2 = true ∧
      p1.Get e2 = .ok st2.value ∧
      (alookup p1.compKeyToCompIndex k).isSome = true) ∧
    (∃ p2, p.Remove e3 = .ok p2 ∧
      alookup p2.compKeyToCompIndex k2 = none ∧
      p2.KeyedEntity k2 = Id.null ∧
      ∀ (em : EM) (t ci : Nat),
        alookup em.compMgr.compTypeToCompIndex t = some ci →
        em.compMgr.componentPools.get? ci = some p2 →
        em.EntitiesWithKey t [] k2 =
          .ok (em.setPool ci { p2 with softRemoveMode := true }, Coll.empty) ∧
        (em.setPool ci
          { p2 with softRemoveMode := true }).collVisits Coll.empty = []) := by
  have hlen1 : i1 < p.components.length := get?_some_lt hg1
  have hi2lt : i2 < p.components.length := get?_some_lt hg2
  have hlen3 : i3 < p.components.length := get?_some_lt hg3
  constructor
  · -- part (a): Remove e1 spares e2 and keeps bucket k
    have hHas1 : p.HasComponent e1 = true := by
      unfold Pool.HasComponent
      rw [hm1]
    have hrmEq1 : p.Remove e1 = (p.invalidateEnt e1).removeKeyed i1 := by
      unfold Pool.Remove
      rw [if_neg (fun hc => hc hHas1)]
      simp only [hm1]
      rw [hsm, if_neg (fun hc => Bool.noConfusion hc)]
      unfold Pool.removeReal
      rw [show (p.invalidateEnt e1).isKeyed = true from hk, if_pos rfl]
    have hi2e : i2 ∈ l.erase i1 := (List.mem_erase_of_ne (Ne.symm hij)).mpr hi2l
    have hne_nil : l.erase i1 ≠ [] := List.ne_nil_of_mem hi2e
    have herased : alookup (aupdate (p.invalidateEnt e1).compKeyToCompIndex k
        (fun lst => lst.erase i1)) k = some (l.erase i1) := by
      rw [show (p.invalidateEnt e1).compKeyToCompIndex = p.compKeyToCompIndex
        from rfl, alookup_aupdate_self, hbk]
      rfl
    by_cases hlt : i1 < p.components.length - 1
    · -- swap-compaction branch
      obtain ⟨back, hgl⟩ : ∃ bk, p.components.getLast? = some bk := by
        rw [getLast?_eq_get?]
        exact ⟨_, List.get?_eq_get (by omega)⟩
      have hglq : p.components.get? (p.components.length - 1) = some back := by
        rw [← getLast?_eq_get?]
        exact hgl
      cases hrm1 : (p.invalidateEnt e1).removeKeyed i1 with
      | error err =>
          exfalso
          unfold Pool.removeKeyed at hrm1
          simp only [show (p.invalidateEnt e1).components.get? i1 = some st1
            from hg1] at hrm1
          rw [if_pos (show i1 < (p.invalidateEnt e1).components.length - 1
            from hlt)] at hrm1
          simp only [show (p.invalidateEnt e1).components.getLast? = some back
            from hgl] at hrm1
          exact Except.noConfusion hrm1
      | ok p1 =>
          have hrm1' := hrm1
          unfold Pool.removeKeyed at hrm1
          simp only [show (p.invalidateEnt e1).components.get? i1 = some st1
            from hg1] at hrm1
          rw [hst1k, if_pos rfl, hst1v] at hrm1
          rw [herased, Option.getD_some, if_neg hne_nil] at hrm1
          rw [if_pos (show i1 < (p.invalidateEnt e1).components.length - 1
            from hlt)] at hrm1
          simp only [show (p.invalidateEnt e1).components.getLast? = some back
            from hgl] at hrm1
          have hEc : p1.components = (p.components.set i1 back).dropLast := by
            cases hrm1
            rfl
          have hEm : p1.entIndexToCompIndex =
              (if (alookup (aset p.entIndexToCompIndex e1.index none)
                  back.eid.index).isSome = true then
                aset (aset p.entIndexToCompIndex e1.index none) back.eid.index
                  (some i1)
              else aset p.entIndexToCompIndex e1.index none) := by
            cases hrm1
            rfl
          have hEb : p1.compKeyToCompIndex =
              (if back.keyedLink = true then
                aupdate (aupdate p.compKeyToCompIndex k
                    (fun lst => lst.erase i1)) back.value
                  (fun lst => replaceFirst lst (p.components.length - 1) i1)
              else aupdate p.compKeyToCompIndex k
                (fun lst => lst.erase i1)) := by
            cases hrm1
            rfl
          have hkey : ∃ ci2, alookup p1.entIndexToCompIndex e2.index =
              some (some ci2) ∧ p1.components.get? ci2 = some st2 := by
            by_cases hbe : back.eid.index = e2.index
            · have hi2last : p.components.length - 1 = i2 :=
                hown2 (p.components.length - 1)
                  (List.mem_range.mpr (by omega)) back hglq hbe
              have hbackst2 : back = st2 := by
                rw [hi2last] at hglq
                exact Option.some.inj (hglq.symm.trans hg2)
              have hisS : (alookup (aset p.entIndexToCompIndex e1.index none)
                  back.eid.index).isSome = true := by
                rw [hbe, alookup_aset_ne _ _ _ _ hne12, hm2]
                rfl
              refine ⟨i1, ?_, ?_⟩
              · rw [hEm, if_pos hisS, hbe, alookup_aset_self]
              · rw [hEc, get?_dropLast _ _ (by rw [List.length_set]; exact hlt),
                  get?_set_self _ _ _ (by omega), hbackst2]
            · have hi2ne : i2 ≠ p.components.length - 1 := by
                intro hcon
                have hbeq : back = st2 := by
                  rw [← hcon] at hglq
                  exact Option.some.inj (hglq.symm.trans hg2)
                exact hbe (by rw [hbeq, hst2e])
              refine ⟨i2, ?_, ?_⟩
              · rw [hEm]
                by_cases hisS : (alookup (aset p.entIndexToCompIndex e1.index
                    none) back.eid.index).isSome = true
                · rw [if_pos hisS, alookup_aset_ne _ _ _ _ hbe,
                    alookup_aset_ne _ _ _ _ hne12, hm2]
                · rw [if_neg hisS, alookup_aset_ne _ _ _ _ hne12, hm2]
              · rw [hEc, get?_dropLast _ _ (by rw [List.length_set]; omega),
                  get?_set_ne _ _ _ _ hij, hg2]
          obtain ⟨ci2, hmapv, hrecv⟩ := hkey
          have hHc2 : p1.HasComponent e2 = true := by
            unfold Pool.HasComponent
            rw [hmapv]
          have hGet2 : p1.Get e2 = .ok st2.value := by
            unfold Pool.Get
            rw [if_neg (fun hc => hc hHc2)]
            simp only [hmapv, hrecv]
          have hBk : (alookup p1.compKeyToCompIndex k).isSome = true := by
            rw [hEb]
            by_cases hbl : back.keyedLink = true
            · rw [if_pos hbl]
              by_cases hbv : back.value = k
              · rw [hbv, alookup_aupdate_self, alookup_aupdate_self, hbk]
                rfl
              · rw [alookup_aupdate_ne _ _ _ _ hbv, alookup_aupdate_self, hbk]
                rfl
            · rw [if_neg hbl, alookup_aupdate_self, hbk]
              rfl
          exact ⟨p1, hrmEq1.trans hrm1', hHc2, hGet2, hBk⟩
    · -- last-slot branch: a plain pop_back
      cases hrm1 : (p.invalidateEnt e1).removeKeyed i1 with
      | error err =>
          exfalso
          unfold Pool.removeKeyed at hrm1
          simp only [show (p.invalidateEnt e1).components.get? i1 = some st1
            from hg1] at hrm1
          rw [if_neg (show ¬ i1 < (p.invalidateEnt e1).components.length - 1
            from hlt)] at hrm1
          exact Except.noConfusion hrm1
      | ok p1 =>
          have hrm1' := hrm1
          unfold Pool.removeKeyed at hrm1
          simp only [show (p.invalidateEnt e1).components.get? i1 = some st1
            from hg1] at hrm1
          rw [hst1k, if_pos rfl, hst1v] at hrm1
          rw [herased, Option.getD_some, if_neg hne_nil] at hrm1
          rw [if_neg (show ¬ i1 < (p.invalidateEnt e1).components.length - 1
            from hlt)] at hrm1
          have hEc : p1.components = p.components.dropLast := by
            cases hrm1
            rfl
          have hEm : p1.entIndexToCompIndex =
              aset p.entIndexToCompIndex e1.index none := by
            cases hrm1
            rfl
          have hEb : p1.compKeyToCompIndex =
              aupdate p.compKeyToCompIndex k (fun lst => lst.erase i1) := by
            cases hrm1
            rfl
          have hmapv : alookup p1.entIndexToCompIndex e2.index =
              some (some i2) := by
            rw [hEm, alookup_aset_ne _ _ _ _ hne12, hm2]
          have hrecv : p1.components.get? i2 = some st2 := by
            rw [hEc, get?_dropLast _ _ (by omega), hg2]
          have hHc2 : p1.HasComponent e2 = true := by
            unfold Pool.HasComponent
            rw [hmapv]
          have hGet2 : p1.Get e2 = .ok st2.value := by
            unfold Pool.Get
            rw [if_neg (fun hc => hc hHc2)]
            simp only [hmapv, hrecv]
          have hBk : (alookup p1.compKeyToCompIndex k).isSome = true := by
            rw [hEb, alookup_aupdate_self, hbk]
            rfl
          exact ⟨p1, hrmEq1.trans hrm1', hHc2, hGet2, hBk⟩
  · -- part (b): removing the last record for k2 erases its bucket
    have hHas3 : p.HasComponent e3 = true := by
      unfold Pool.HasComponent
      rw [hm3]
    have hrmEq3 : p.Remove e3 = (p.invalidateEnt e3).removeKeyed i3 := by
      unfold Pool.Remove
      rw [if_neg (fun hc => hc hHas3)]
      simp only [hm3]
      rw [hsm, if_neg (fun hc => Bool.noConfusion hc)]
      unfold Pool.removeReal
      rw [show (p.invalidateEnt e3).isKeyed = true from hk, if_pos rfl]
    have herased3 : alookup (aupdate (p.invalidateEnt e3).compKeyToCompIndex k2
        (fun lst => lst.erase i3)) k2 = some [] := by
      rw [show (p.invalidateEnt e3).compKeyToCompIndex = p.compKeyToCompIndex
        from rfl, alookup_aupdate_self, hbk2]
      simp only [Option.map_some']
      rw [List.erase_cons_head]
    have hBBnone : alookup (aerase (aupdate p.compKeyToCompIndex k2
        (fun lst => lst.erase i3)) k2) k2 = none :=
      alookup_aerase_self _ _ (by rw [aupdate_keys]; exact hnd)
    have hfinish : ∀ p2, (p.invalidateEnt e3).removeKeyed i3 = .ok p2 →
        alookup p2.compKeyToCompIndex k2 = none →
        p2.isKeyed = true → p2.softRemoveMode = false →
        ∃ p2', p.Remove e3 = .ok p2' ∧
          alookup p2'.compKeyToCompIndex k2 = none ∧
          p2'.KeyedEntity k2 = Id.null ∧
          ∀ (em : EM) (t ci : Nat),
            alookup em.compMgr.compTypeToCompIndex t = some ci →
            em.compMgr.componentPools.get? ci = some p2' →
            em.EntitiesWithKey t [] k2 =
              .ok (em.setPool ci { p2' with softRemoveMode := true },
                Coll.empty) ∧
            (em.setPool ci
              { p2' with softRemoveMode := true }).collVisits Coll.empty
              = [] := by
      intro p2 hok hnone hKd2 hSm2
      have hKeyedE : p2.KeyedEntity k2 = Id.null := by
        unfold Pool.KeyedEntity
        rw [hnone]
      refine ⟨p2, hrmEq3.trans hok, hnone, hKeyedE, ?_⟩
      intro em t ci hat hgp
      have hcm1 : em.compMgr.CreateMask [t] = .ok (insert ci ∅) := by
        unfold CompMgr.CreateMask foldE CompMgr.setMask
        simp only [hat]
        rfl
      constructor
      · unfold EM.EntitiesWithKey
        simp only [hat, hgp]
        rw [if_pos hKd2]
        simp only [hcm1]
        unfold Pool.toggleSoftRemove
        rw [if_pos rfl]
        rw [hSm2, if_neg (fun hc => Bool.noConfusion hc)]
        simp only [hnone]
      · rfl
    by_cases hlt3 : i3 < p.components.length - 1
    · obtain ⟨back3, hgl3⟩ : ∃ bk, p.components.getLast? = some bk := by
        rw [getLast?_eq_get?]
        exact ⟨_, List.get?_eq_get (by omega)⟩
      cases hrm3 : (p.invalidateEnt e3).removeKeyed i3 with
      | error err =>
          exfalso
          unfold Pool.removeKeyed at hrm3
          simp only [show (p.invalidateEnt e3).components.get? i3 = some st3
            from hg3] at hrm3
          rw [if_pos (show i3 < (p.invalidateEnt e3).components.length - 1
            from hlt3)] at hrm3
          simp only [show (p.invalidateEnt e3).components.getLast? = some back3
            from hgl3] at hrm3
          exact Except.noConfusion hrm3
      | ok p2 =>
          have hrm3' := hrm3
          unfold Pool.removeKeyed at hrm3
          simp only [show (p.invalidateEnt e3).components.get? i3 = some st3
            from hg3] at hrm3
          rw [hst3k, if_pos rfl, hst3v] at hrm3
          rw [herased3, Option.getD_some, if_pos rfl] at hrm3
          rw [if_pos (show i3 < (p.invalidateEnt e3).components.length - 1
            from hlt3)] at hrm3
          simp only [show (p.invalidateEnt e3).components.getLast? = some back3
            from hgl3] at hrm3
          have hEb3 : p2.compKeyToCompIndex =
              (if back3.keyedLink = true then
                aupdate (aerase (aupdate p.compKeyToCompIndex k2
                    (fun lst => lst.erase i3)) k2) back3.value
                  (fun lst => replaceFirst lst (p.components.length - 1) i3)
              else aerase (aupdate p.compKeyToCompIndex k2
                (fun lst => lst.erase i3)) k2) := by
            cases hrm3
            rfl
          have hnone : alookup p2.compKeyToCompIndex k2 = none := by
            rw [hEb3]
            by_cases hbl : back3.keyedLink = true
            · rw [if_pos hbl]
              by_cases hbv : back3.value = k2
              · rw [hbv, alookup_aupdate_self, hBBnone]
                rfl
              · rw [alookup_aupdate_ne _ _ _ _ hbv, hBBnone]
            · rw [if_neg hbl, hBBnone]
          exact hfinish p2 hrm3' hnone (by cases hrm3; exact hk)
            (by cases hrm3; exact hsm)
    · cases hrm3 : (p.invalidateEnt e3).removeKeyed i3 with
      | error err =>
          exfalso
          unfold Pool.removeKeyed at hrm3
          simp only [show (p.invalidateEnt e3).components.get? i3 = some st3
            from hg3] at hrm3
          rw [if_neg (show ¬ i3 < (p.invalidateEnt e3).components.length - 1
            from hlt3)] at hrm3
          exact Except.noConfusion hrm3
      | ok p2 =>
          have hrm3' := hrm3
          unfold Pool.removeKeyed at hrm3
          simp only [show (p.invalidateEnt e3).components.get? i3 = some st3
            from hg3] at hrm3
          rw [hst3k, if_pos rfl, hst3v] at hrm3
          rw [herased3, Option.getD_some, if_pos rfl] at hrm3
          rw [if_neg (show ¬ i3 < (p.invalidateEnt e3).components.length - 1
            from hlt3)] at hrm3
          have hnone : alookup p2.compKeyToCompIndex k2 = none := by
            rw [show p2.compKeyToCompIndex =
              aerase (aupdate p.compKeyToCompIndex k2
                (fun lst => lst.erase i3)) k2 from by cases hrm3; rfl]
            exact hBBnone
          exact hfinish p2 hrm3' hnone (by cases hrm3; exact hk)
            (by cases hrm3; exact hsm)

/-- A keyed pool built through the public `Set`: entities 1 and 2 share key
5's bucket, entity 3 alone holds key 7. -/
def c8p : Pool :=
  ((Pool.mk0 true).SetKeyed ⟨1, 0⟩ 5 |>.SetKeyed ⟨2, 0⟩ 5 |>.SetKeyed ⟨3, 0⟩ 7)

theorem c8_keyed_buckets_witness :
    (alookup c8p.compKeyToCompIndex 5 = some [0, 1] ∧
      c8p.entityAt 0 = ⟨1, 0⟩ ∧ c8p.entityAt 1 = ⟨2, 0⟩ ∧
      alookup c8p.compKeyToCompIndex 7 = some [2]) ∧
    (∃ p1, c8p.Remove ⟨1, 0⟩ = .ok p1 ∧
      p1.HasComponent ⟨2, 0⟩ = true ∧
      p1.Get ⟨2, 0⟩ = .ok 5 ∧
      (alookup p1.compKeyToCompIndex 5).isSome = true) ∧
    (∃ p2, c8p.Remove ⟨3, 0⟩ = .ok p2 ∧
      alookup p2.compKeyToCompIndex 7 = none ∧
      p2.KeyedEntity 7 = Id.null ∧
      ∀ (em : EM) (t ci : Nat),
        alookup em.compMgr.compTypeToCompIndex t = some ci →
        em.compMgr.componentPools.get? ci = some p2 →
        em.EntitiesWithKey t [] 7 =
          .ok (em.setPool ci { p2 with softRemoveMode := true }, Coll.empty) ∧
        (em.setPool ci
          { p2 with softRemoveMode := true }).collVisits Coll.empty = []) :=
  ⟨⟨by decide, by decide, by decide, by decide⟩,
   (c8_keyed_buckets c8p ⟨1, 0⟩ ⟨2, 0⟩ ⟨3, 0⟩ 0 1 2
      ⟨⟨1, 0⟩, 5, true⟩ ⟨⟨2, 0⟩, 5, true⟩ ⟨⟨3, 0⟩, 7, true⟩ 5 7 [0, 1]
      (by decide) (by decide) (by decide) (by decide) (by decide) (by decide)
      (by decide) (by decide) (by decide) (by decide) (by decide) (by decide)
      (by decide) (by decide) (by decide) (by decide) (by decide) (by decide)
      (by decide) (by decide)).1,
   (c8_keyed_buckets c8p ⟨1, 0⟩ ⟨2, 0⟩ ⟨3, 0⟩ 0 1 2
      ⟨⟨1, 0⟩, 5, true⟩ ⟨⟨2, 0⟩, 5, true⟩ ⟨⟨3, 0⟩, 7, true⟩ 5 7 [0, 1]
      (by decide) (by decide) (by decide) (by decide) (by decide) (by decide)
      (by decide) (by decide) (by decide) (by decide) (by decide) (by decide)
      (by decide) (by decide) (by decide) (by decide) (by decide) (by decide)
      (by decide) (by decide)).2⟩

end Glomerate
